import Mathlib

/-!
Verification of the tournament results engine of the bass-tournament bot
(src/index.js).  The SQLite tables are modelled as Lean lists, SQL REAL
weights as rationals, and timestamps as natural numbers counting minutes.
Discord snowflake identifiers (guild, channel, user) are decimal numerals
stored as TEXT in the database; they are modelled as naturals, so that the
byte ordering SQLite uses on them coincides with the numeric ordering.
An ORDER BY clause is modelled as a stable insertion sort on the scan
order of the table (grouped output is emitted in ascending key order, as
the GROUP BY temporary b-tree produces it).
-/

namespace BassBot

/-- Minutes in a month of the model calendar; strftime period extraction is
modelled as integer division of the absolute minute count. -/
def minutesPerMonth : Nat := 44640

/-- Month index of a timestamp, modelling strftime with format Y-m. -/
def monthIdx (t : Nat) : Nat := t / minutesPerMonth

/-- Year index of a timestamp, modelling strftime with format Y. -/
def yearIdx (t : Nat) : Nat := monthIdx t / 12

/-- A row of the tournaments table. -/
structure Tournament where
  id : Nat
  guild : Nat
  name : String
  isActive : Bool
  startedAt : Nat
  endedAt : Option Nat
deriving DecidableEq, Repr

/-- A row of the uploads table (photo evidence staging). -/
structure Upload where
  id : Nat
  guild : Nat
  channel : Nat
  user : Nat
  messageId : Nat
  imageUrl : String
  createdAt : Nat
deriving DecidableEq, Repr

/-- A row of the weighins table (the catch ledger). -/
structure WeighIn where
  id : Nat
  guild : Nat
  channel : Nat
  tournamentId : Nat
  user : Nat
  weight : ℚ
  photoUrl : String
  notes : Option String
  status : String
  createdAt : Nat
deriving DecidableEq, Repr

/-- A row of the tournament results table (the per-event snapshot). -/
structure ResultRow where
  guild : Nat
  tournamentId : Nat
  userId : Nat
  bigBass : ℚ
  totalBag : ℚ
  fishCount : Nat
deriving DecidableEq, Repr

/-- The whole database.  The next-id counters model AUTOINCREMENT keys. -/
structure DB where
  tournaments : List Tournament
  weighins : List WeighIn
  uploads : List Upload
  results : List ResultRow
  nextTournamentId : Nat
  nextWeighInId : Nat
  nextUploadId : Nat
deriving DecidableEq, Repr

/-- The freshly created database. -/
def emptyDB : DB := ⟨[], [], [], [], 1, 1, 1⟩

/-- startTournament: deactivate every active tournament of the guild,
stamping ended_at only when it is still unset (COALESCE), then insert a
fresh active tournament.  Returns the new id together with the new state. -/
def startTournament (g : Nat) (name : String) (now : Nat) (db : DB) : Nat × DB :=
  let closed := db.tournaments.map fun t =>
    if t.guild == g && t.isActive then
      { t with isActive := false, endedAt := some (t.endedAt.getD now) }
    else t
  (db.nextTournamentId,
    { db with
        tournaments := closed ++ [⟨db.nextTournamentId, g, name, true, now, none⟩],
        nextTournamentId := db.nextTournamentId + 1 })

/-- endTournament: set is_active to 0 and ended_at to now on the matching
guild and id. -/
def endTournament (g : Nat) (tid : Nat) (now : Nat) (db : DB) : DB :=
  { db with
      tournaments := db.tournaments.map fun t =>
        if t.guild == g && t.id == tid then
          { t with isActive := false, endedAt := some now }
        else t }

/-- getActiveTournament: the active tournament of the guild with the
largest id (ORDER BY id DESC LIMIT 1), if any. -/
def getActiveTournament (g : Nat) (db : DB) : Option Tournament :=
  (db.tournaments.filter fun t => t.guild == g && t.isActive).foldl
    (fun acc t =>
      match acc with
      | none => some t
      | some b => if b.id < t.id then some t else some b)
    none

/-- insertUpload: append a row to the uploads table. -/
def insertUpload (g ch u : Nat) (msgId : Nat) (img : String) (now : Nat) (db : DB) : DB :=
  { db with
      uploads := db.uploads ++ [⟨db.nextUploadId, g, ch, u, msgId, img, now⟩],
      nextUploadId := db.nextUploadId + 1 }

/-- The WHERE clause of getLatestUpload: exact triple match and created_at
within the recency window (created_at at least now minus maxMinutes). -/
def uploadMatches (g ch u : Nat) (maxMinutes now : Nat) (x : Upload) : Bool :=
  x.guild == g && x.channel == ch && x.user == u && now ≤ x.createdAt + maxMinutes

/-- Descending created_at, the ORDER BY key of getLatestUpload. -/
def byCreatedDesc (a b : Upload) : Prop := b.createdAt ≤ a.createdAt

instance : DecidableRel byCreatedDesc := fun a b => Nat.decLe b.createdAt a.createdAt

/-- getLatestUpload: latest matching upload within the window
(ORDER BY created_at DESC LIMIT 1). -/
def getLatestUpload (g ch u : Nat) (maxMinutes now : Nat) (db : DB) : Option Upload :=
  (List.insertionSort byCreatedDesc
    (db.uploads.filter (uploadMatches g ch u maxMinutes now))).head?

/-- insertWeighIn: append a catch row with status approved. -/
def insertWeighIn (g ch : Nat) (tid : Nat) (u : Nat) (w : ℚ) (photo : String)
    (notes : Option String) (now : Nat) (db : DB) : DB :=
  { db with
      weighins :=
        db.weighins ++ [⟨db.nextWeighInId, g, ch, tid, u, w, photo, notes, "approved", now⟩],
      nextWeighInId := db.nextWeighInId + 1 }

/-- setWeighInStatus: UPDATE weighins SET status WHERE id.  The statement
filters on the global id only; it carries no guild condition. -/
def setWeighInStatus (wid : Nat) (status : String) (db : DB) : DB :=
  { db with
      weighins := db.weighins.map fun w =>
        if w.id == wid then { w with status := status } else w }

/-- The approve button handler: the invoking guild is received but the
update itself is keyed by the weigh-in id alone. -/
def approveWeighIn (_g : Nat) (wid : Nat) (db : DB) : DB :=
  setWeighInStatus wid "approved" db

/-- The reject button handler. -/
def rejectWeighIn (_g : Nat) (wid : Nat) (db : DB) : DB :=
  setWeighInStatus wid "rejected" db

/-- The approved catches of one tournament of one guild, in table order. -/
def approvedCatches (g : Nat) (tid : Nat) (db : DB) : List WeighIn :=
  db.weighins.filter fun w => w.guild == g && w.tournamentId == tid && w.status == "approved"

/-- Ascending order on naturals, used for the GROUP BY key order. -/
def natAsc (a b : Nat) : Prop := a ≤ b

instance : DecidableRel natAsc := fun a b => Nat.decLe a b

/-- The distinct user ids of a list, in ascending order: the order in which
GROUP BY user_id emits its groups. -/
def usersAsc (l : List Nat) : List Nat :=
  (List.insertionSort natAsc l).dedup

/-- MAX over a SQL group (the group is never empty when the row exists). -/
def maxD : List ℚ → ℚ
  | [] => 0
  | w :: ws => ws.foldl max w

/-- One output row of the big bass leaderboard query. -/
structure BigRow where
  user : Nat
  bigBass : ℚ
deriving DecidableEq, Repr

/-- Descending big_bass, the ORDER BY key of the big bass query. -/
def bigDesc (a b : BigRow) : Prop := b.bigBass ≤ a.bigBass

instance : DecidableRel bigDesc := fun a b =>
  inferInstanceAs (Decidable (b.bigBass ≤ a.bigBass))

/-- The grouped (per user) part of the big bass query: per user the MAX of
the approved weights, groups emitted in ascending user order. -/
def bigBassAgg (g : Nat) (tid : Nat) (db : DB) : List BigRow :=
  let cs := approvedCatches g tid db
  (usersAsc (cs.map (·.user))).map fun u =>
    ⟨u, maxD ((cs.filter (·.user == u)).map (·.weight))⟩

/-- getBigBassLeaderboard: group, sort by big_bass descending, LIMIT 25. -/
def getBigBassLeaderboard (g : Nat) (tid : Nat) (db : DB) : List BigRow :=
  (List.insertionSort bigDesc (bigBassAgg g tid db)).take 25

/-- Descending rationals, the window ORDER BY weight_lbs DESC. -/
def ratDesc (a b : ℚ) : Prop := b ≤ a

instance : DecidableRel ratDesc := fun a b => inferInstanceAs (Decidable (b ≤ a))

/-- The rows with ROW_NUMBER at most 5 of one partition: the five heaviest
weights of the list. -/
def topWeights (ws : List ℚ) : List ℚ :=
  (List.insertionSort ratDesc ws).take 5

/-- One output row of the total bag leaderboard query. -/
structure BagRow where
  user : Nat
  totalBag : ℚ
  fishCount : Nat
deriving DecidableEq, Repr

/-- Descending total_bag, the ORDER BY key of the total bag query. -/
def bagDesc (a b : BagRow) : Prop := b.totalBag ≤ a.totalBag

instance : DecidableRel bagDesc := fun a b =>
  inferInstanceAs (Decidable (b.totalBag ≤ a.totalBag))

/-- The grouped part of the total bag query: per user the SUM and COUNT of
the rows with ROW_NUMBER at most 5. -/
def bagAgg (g : Nat) (tid : Nat) (db : DB) : List BagRow :=
  let cs := approvedCatches g tid db
  (usersAsc (cs.map (·.user))).map fun u =>
    let tw := topWeights ((cs.filter (·.user == u)).map (·.weight))
    ⟨u, tw.sum, tw.length⟩

/-- getTotalBagLeaderboard: group, sort by total_bag descending, LIMIT 25. -/
def getTotalBagLeaderboard (g : Nat) (tid : Nat) (db : DB) : List BagRow :=
  (List.insertionSort bagDesc (bagAgg g tid db)).take 25

/-- The key of the UNIQUE constraint on tournament_results. -/
def rkey (r : ResultRow) : Nat × Nat := (r.tournamentId, r.userId)

/-- The DO UPDATE SET clause of the snapshot upsert: overwrite the three
value columns of the existing row, keeping its other columns. -/
def setVals (new old : ResultRow) : ResultRow :=
  { old with bigBass := new.bigBass, totalBag := new.totalBag, fishCount := new.fishCount }

/-- INSERT ... ON CONFLICT (tournament_id, user_id) DO UPDATE. -/
def upsertResult (r : ResultRow) (rs : List ResultRow) : List ResultRow :=
  if rs.any (fun x => rkey x == rkey r) then
    rs.map fun x => if rkey x == rkey r then setVals r x else x
  else rs ++ [r]

/-- Insertion-order deduplication, as a JavaScript Set iterates. -/
def dedupFirst (l : List Nat) : List Nat :=
  l.foldl (fun acc u => if u ∈ acc then acc else acc ++ [u]) []

/-- Fold the prepared upsert statement over a batch of rows. -/
def applyRows (rows : List ResultRow) (rs : List ResultRow) : List ResultRow :=
  rows.foldl (fun acc r => upsertResult r acc) rs

/-- The rows snapshotTournamentResults writes: one per user appearing in
either leaderboard, with zero for a side the user is absent from. -/
def snapshotRows (g : Nat) (tid : Nat) (db : DB) : List ResultRow :=
  let big := getBigBassLeaderboard g tid db
  let bag := getTotalBagLeaderboard g tid db
  let users := dedupFirst (big.map (·.user) ++ bag.map (·.user))
  users.map fun u =>
    { guild := g
      tournamentId := tid
      userId := u
      bigBass := ((big.find? (fun r => r.user == u)).map (·.bigBass)).getD 0
      totalBag := ((bag.find? (fun r => r.user == u)).map (·.totalBag)).getD 0
      fishCount := ((bag.find? (fun r => r.user == u)).map (·.fishCount)).getD 0 }

/-- snapshotTournamentResults: upsert every snapshot row into the results
table.  The function performs no check that the tournament is closed. -/
def snapshotTournamentResults (g : Nat) (tid : Nat) (db : DB) : DB :=
  { db with results := applyRows (snapshotRows g tid db) db.results }

/-- A joined row of a period standings query. -/
structure PeriodRow where
  userId : Nat
  totalBag : ℚ
  bigBass : ℚ
  tournamentId : Nat
deriving DecidableEq, Repr

/-- One output row of a period standings query. -/
structure PeriodEntry where
  userId : Nat
  totalBag : ℚ
  bigBass : ℚ
  tournamentsCount : Nat
deriving DecidableEq, Repr

/-- The ORDER BY of the period queries: summed bag descending, then best
big bass descending. -/
def periodDesc (a b : PeriodEntry) : Prop :=
  b.totalBag < a.totalBag ∨ (b.totalBag = a.totalBag ∧ b.bigBass ≤ a.bigBass)

instance : DecidableRel periodDesc := fun a b =>
  inferInstanceAs (Decidable (b.totalBag < a.totalBag ∨ (b.totalBag = a.totalBag ∧ b.bigBass ≤ a.bigBass)))

/-- The join of tournament_results with tournaments, filtered to the rows
of the guild whose tournament satisfies the period selector. -/
def periodJoinRows (g : Nat) (sel : Tournament → Bool) (db : DB) : List PeriodRow :=
  db.results.flatMap fun r =>
    if r.guild == g then
      (db.tournaments.filter fun t => t.id == r.tournamentId && sel t).map
        fun _ => ⟨r.userId, r.totalBag, r.bigBass, r.tournamentId⟩
    else []

/-- The common shape of the month and year standings queries: join, group
by user, aggregate SUM, MAX and COUNT DISTINCT, order, LIMIT 25. -/
def periodLeaderboardCore (g : Nat) (sel : Tournament → Bool) (db : DB) : List PeriodEntry :=
  let rows := periodJoinRows g sel db
  let entries := (usersAsc (rows.map (·.userId))).map fun u =>
    let rus := rows.filter (·.userId == u)
    ⟨u, (rus.map (·.totalBag)).sum, maxD (rus.map (·.bigBass)),
      ((rus.map (·.tournamentId)).dedup).length⟩
  (List.insertionSort periodDesc entries).take 25

/-- The WHERE clause on the tournament of the month query: ended_at is not
null and its month matches. -/
def endedInMonth (m : Nat) (t : Tournament) : Bool :=
  match t.endedAt with
  | some e => monthIdx e == m
  | none => false

/-- The WHERE clause on the tournament of the year query. -/
def endedInYear (y : Nat) (t : Tournament) : Bool :=
  match t.endedAt with
  | some e => yearIdx e == y
  | none => false

/-- getMonthLeaderboard: monthly standings from snapshot rows only. -/
def getMonthLeaderboard (g : Nat) (m : Nat) (db : DB) : List PeriodEntry :=
  periodLeaderboardCore g (endedInMonth m) db

/-- getYearLeaderboard: yearly standings from snapshot rows only. -/
def getYearLeaderboard (g : Nat) (y : Nat) (db : DB) : List PeriodEntry :=
  periodLeaderboardCore g (endedInYear y) db

/-- The user-facing failures of the weigh-in modal handler. -/
inductive SubmitError where
  | wrongChannel
  | noActiveTournament
  | invalidWeight
  | missingEvidence
deriving DecidableEq, Repr

/-- The guard rejecting a weigh-in outside the configured panel channel. -/
def wrongPanel (cfgPanel : Option Nat) (ch : Nat) : Bool :=
  match cfgPanel with
  | some p => ch != p
  | none => false

/-- The weighin_modal handler.  The parsed weight is an optional rational:
none models a string Number turns into NaN.  The handler checks the panel
channel, the active tournament, the weight, then resolves the latest
upload; on success it inserts the catch and answers its id. -/
def weighinModalHandler (cfgPanel : Option Nat) (g ch u : Nat) (weightParsed : Option ℚ)
    (notes : Option String) (now : Nat) (db : DB) : DB × Except SubmitError Nat :=
  if wrongPanel cfgPanel ch then (db, Except.error SubmitError.wrongChannel)
  else
    match getActiveTournament g db with
    | none => (db, Except.error SubmitError.noActiveTournament)
    | some a =>
      match weightParsed with
      | none => (db, Except.error SubmitError.invalidWeight)
      | some w =>
        if w ≤ 0 then (db, Except.error SubmitError.invalidWeight)
        else
          match getLatestUpload g ch u 180 now db with
          | none => (db, Except.error SubmitError.missingEvidence)
          | some up =>
            (insertWeighIn g ch a.id u w up.imageUrl notes now db, Except.ok db.nextWeighInId)

/-- The commands of the bot that touch the database, with their inputs. -/
inductive Op where
  | start (g : Nat) (name : String) (now : Nat)
  | endCmd (g : Nat) (now : Nat)
  | postUpload (g ch u : Nat) (msgId : Nat) (img : String) (now : Nat)
  | submitWeighin (cfgPanel : Option Nat) (g ch u : Nat) (w : Option ℚ)
      (notes : Option String) (now : Nat)
  | approve (g : Nat) (wid : Nat)
  | reject (g : Nat) (wid : Nat)

/-- One step of the interaction handler.  The second component records the
tournament ids snapshotTournamentResults has been invoked on: the end
command snapshots the active tournament right after closing it, and no
other command snapshots anything. -/
def execOp : DB × List Nat → Op → DB × List Nat
  | (db, tg), Op.start g name now => ((startTournament g name now db).2, tg)
  | (db, tg), Op.endCmd g now =>
    match getActiveTournament g db with
    | none => (db, tg)
    | some a => (snapshotTournamentResults g a.id (endTournament g a.id now db), tg ++ [a.id])
  | (db, tg), Op.postUpload g ch u m img now => (insertUpload g ch u m img now db, tg)
  | (db, tg), Op.submitWeighin cfg g ch u w n now =>
    ((weighinModalHandler cfg g ch u w n now db).1, tg)
  | (db, tg), Op.approve g wid => (approveWeighIn g wid db, tg)
  | (db, tg), Op.reject g wid => (rejectWeighIn g wid db, tg)

/-- Run a command sequence from the fresh database. -/
def execTrace (ops : List Op) : DB × List Nat :=
  ops.foldl execOp (emptyDB, [])

/-- The number of active tournaments of a guild. -/
def activeCount (g : Nat) (db : DB) : Nat :=
  db.tournaments.countP fun t => t.guild == g && t.isActive

/-- The weights of the approved catches of one angler in one event, the
partition the ranking queries aggregate over. -/
def anglerApprovedWeights (g tid u : Nat) (db : DB) : List ℚ :=
  ((approvedCatches g tid db).filter (·.user == u)).map (·.weight)

/-- m is the maximum of the list. -/
def IsMaxOf (m : ℚ) (ws : List ℚ) : Prop := m ∈ ws ∧ ∀ x ∈ ws, x ≤ m

/-- The row reports the sum of the five heaviest weights (all of them when
there are fewer than five) and how many contributed. -/
def SumsTopFive (ws : List ℚ) (row : BagRow) : Prop :=
  row.fishCount = min ws.length 5 ∧
    ∃ top rest, List.Perm ws (top ++ rest) ∧ top.length = min ws.length 5 ∧
      (∀ x ∈ rest, ∀ y ∈ top, x ≤ y) ∧ row.totalBag = top.sum

/-- Strictly descending big bass with ties by ascending user id. -/
def BigOrder (a b : BigRow) : Prop :=
  b.bigBass < a.bigBass ∨ (a.bigBass = b.bigBass ∧ a.user < b.user)

/-- The snapshot rows of the guild whose tournament is closed within the
selected period; the spec reading of what period standings aggregate. -/
def periodResults (g : Nat) (sel : Tournament → Bool) (db : DB) : List ResultRow :=
  db.results.filter fun r =>
    r.guild == g && db.tournaments.any fun t => t.id == r.tournamentId && sel t

/-- The values of a period standings entry are the per-angler SUM, MAX and
distinct event count over exactly that angler's in-period snapshot rows. -/
def PeriodEntryCorrect (g : Nat) (sel : Tournament → Bool) (db : DB) (e : PeriodEntry) : Prop :=
  (periodResults g sel db).filter (·.userId == e.userId) ≠ [] ∧
    e.totalBag = (((periodResults g sel db).filter (·.userId == e.userId)).map (·.totalBag)).sum ∧
    IsMaxOf e.bigBass (((periodResults g sel db).filter (·.userId == e.userId)).map (·.bigBass)) ∧
    e.tournamentsCount =
      ((((periodResults g sel db).filter (·.userId == e.userId)).map (·.tournamentId)).dedup).length

/-!  General lemmas about the stable sort used to model ORDER BY. -/

/-- Inserting into a sorted list keeps it sorted and, because an element is
placed before every element it ties with, an element known to be S-below
the whole list stays S-ordered among its ties. -/
theorem pairwise_orderedInsert_tie {α : Type} (r S : α → α → Prop) [DecidableRel r]
    (total : ∀ a b, r a b ∨ r b a) (htrans : ∀ a b c, r a b → r b c → r a c) (a : α) :
    ∀ l : List α, l.Pairwise (fun x y => r x y ∧ (r y x → S x y)) →
      (∀ b ∈ l, S a b) →
      (List.orderedInsert r a l).Pairwise fun x y => r x y ∧ (r y x → S x y) := by
  intro l
  induction l with
  | nil => intro _ _; simp
  | cons b l ih =>
    intro hp hS
    rw [List.pairwise_cons] at hp
    obtain ⟨hb, hl⟩ := hp
    by_cases hab : r a b
    · rw [List.orderedInsert, if_pos hab]
      rw [List.pairwise_cons]
      refine ⟨?_, List.pairwise_cons.mpr ⟨hb, hl⟩⟩
      intro c hc
      rcases List.mem_cons.mp hc with hcb | hcl
      · subst hcb
        exact ⟨hab, fun _ => hS c (List.mem_cons_self _ _)⟩
      · refine ⟨htrans a b c hab (hb c hcl).1, fun _ => hS c (List.mem_cons_of_mem _ hcl)⟩
    · rw [List.orderedInsert, if_neg hab]
      rw [List.pairwise_cons]
      constructor
      · intro x hx
        rcases (List.mem_orderedInsert r).mp hx with hxa | hxl
        · rw [hxa]
          exact ⟨(total a b).resolve_left hab, fun hab2 => absurd hab2 hab⟩
        · exact hb x hxl
      · exact ih hl fun c hc => hS c (List.mem_cons_of_mem _ hc)

/-- The stable sort of a list: the output is sorted by r, and among ties
the original pairwise order S survives. -/
theorem pairwise_insertionSort_tie {α : Type} (r S : α → α → Prop) [DecidableRel r]
    (total : ∀ a b, r a b ∨ r b a) (htrans : ∀ a b c, r a b → r b c → r a c) :
    ∀ l : List α, l.Pairwise S →
      (List.insertionSort r l).Pairwise fun x y => r x y ∧ (r y x → S x y) := by
  intro l
  induction l with
  | nil => intro _; simp
  | cons a l ih =>
    intro hp
    rw [List.pairwise_cons] at hp
    obtain ⟨ha, hl⟩ := hp
    rw [List.insertionSort]
    exact pairwise_orderedInsert_tie r S total htrans a _ (ih hl)
      fun b hb => ha b ((List.mem_insertionSort r).mp hb)

/-- Every list is trivially pairwise related by the always-true relation. -/
theorem pairwise_trivial {α : Type} (l : List α) : l.Pairwise fun _ _ => True := by
  induction l with
  | nil => simp
  | cons a l ih => exact List.Pairwise.cons (fun _ _ => trivial) ih

/-- Sortedness of the stable sort without tie information. -/
theorem pairwise_insertionSort_of {α : Type} (r : α → α → Prop) [DecidableRel r]
    (total : ∀ a b, r a b ∨ r b a) (htrans : ∀ a b c, r a b → r b c → r a c)
    (l : List α) : (List.insertionSort r l).Pairwise r := by
  have h := pairwise_insertionSort_tie r (fun _ _ => True) total htrans l (pairwise_trivial l)
  exact h.imp fun hxy => hxy.1

/-!  Lemmas about the MAX aggregate. -/

theorem foldl_max_init_le (ws : List ℚ) : ∀ b : ℚ, b ≤ ws.foldl max b := by
  induction ws with
  | nil => intro b; exact le_refl b
  | cons w ws ih =>
    intro b
    calc b ≤ max b w := le_max_left b w
    _ ≤ (w :: ws).foldl max b := ih (max b w)

theorem foldl_max_mem (ws : List ℚ) : ∀ b : ℚ, ws.foldl max b = b ∨ ws.foldl max b ∈ ws := by
  induction ws with
  | nil => intro b; exact Or.inl rfl
  | cons w ws ih =>
    intro b
    rcases ih (max b w) with h | h
    · rcases max_choice b w with hb | hw
      · exact Or.inl (by rw [List.foldl_cons, h, hb])
      · exact Or.inr (by rw [List.foldl_cons, h, hw]; exact List.mem_cons_self _ _)
    · exact Or.inr (List.mem_cons_of_mem _ (by rw [List.foldl_cons]; exact h))

theorem foldl_max_ge (ws : List ℚ) : ∀ (b : ℚ) (x : ℚ), x ∈ ws → x ≤ ws.foldl max b := by
  induction ws with
  | nil => intro _ x hx; simp at hx
  | cons w ws ih =>
    intro b x hx
    rcases List.mem_cons.mp hx with hxw | hxs
    · subst hxw
      calc x ≤ max b x := le_max_right b x
      _ ≤ (x :: ws).foldl max b := by rw [List.foldl_cons]; exact foldl_max_init_le ws (max b x)
    · rw [List.foldl_cons]; exact ih (max b w) x hxs

/-- The MAX aggregate of a nonempty group is a member that bounds the group. -/
theorem maxD_spec (w : ℚ) (ws : List ℚ) :
    IsMaxOf (maxD (w :: ws)) (w :: ws) := by
  constructor
  · rcases foldl_max_mem ws w with h | h
    · rw [maxD, h]; exact List.mem_cons_self _ _
    · exact List.mem_cons_of_mem _ h
  · intro x hx
    rcases List.mem_cons.mp hx with hxw | hxs
    · subst hxw; exact foldl_max_init_le ws x
    · exact foldl_max_ge ws w x hxs

/-!  Lemmas about the group key order. -/

theorem mem_usersAsc (l : List Nat) (u : Nat) : u ∈ usersAsc l ↔ u ∈ l := by
  rw [usersAsc, List.mem_dedup, List.mem_insertionSort]

theorem usersAsc_nodup (l : List Nat) : (usersAsc l).Nodup :=
  List.nodup_dedup _

theorem usersAsc_sorted (l : List Nat) : (usersAsc l).Pairwise (· < ·) := by
  have hle : (usersAsc l).Pairwise natAsc :=
    (pairwise_insertionSort_of natAsc (fun a b => Nat.le_total a b)
      (fun _ _ _ => Nat.le_trans) l).sublist (List.dedup_sublist _)
  have hne : (usersAsc l).Pairwise (· ≠ ·) := usersAsc_nodup l
  exact (hle.and hne).imp fun h => lt_of_le_of_ne h.1 h.2

/-- Filtering the group output for one present key yields exactly that
singleton group row. -/
theorem filter_map_eq_single {β : Type} (mk : Nat → β) (keyOf : β → Nat)
    (hkey : ∀ u, keyOf (mk u) = u) :
    ∀ l : List Nat, l.Nodup → ∀ u ∈ l,
      (l.map mk).filter (fun x => keyOf x == u) = [mk u] := by
  intro l
  induction l with
  | nil => intro _ u hu; simp at hu
  | cons a l ih =>
    intro hnd u hu
    rw [List.nodup_cons] at hnd
    rcases List.mem_cons.mp hu with hua | hul
    · subst hua
      rw [List.map_cons, List.filter_cons, if_pos (by simp [hkey])]
      have : (l.map mk).filter (fun x => keyOf x == u) = [] := by
        rw [List.filter_eq_nil_iff]
        intro x hx
        obtain ⟨v, hv, hvx⟩ := List.mem_map.mp hx
        subst hvx
        simp only [hkey, beq_iff_eq]
        intro hvu
        exact hnd.1 (hvu ▸ hv)
      rw [this]
    · have hau : a ≠ u := fun h => hnd.1 (h ▸ hul)
      rw [List.map_cons, List.filter_cons, if_neg (by simp [hkey, hau])]
      exact ih hnd.2 u hul

/-!  Totality and transitivity of the ORDER BY keys. -/

theorem ratDesc_total : ∀ a b : ℚ, ratDesc a b ∨ ratDesc b a := fun a b => le_total b a

theorem ratDesc_trans : ∀ a b c : ℚ, ratDesc a b → ratDesc b c → ratDesc a c :=
  fun _ _ _ h1 h2 => le_trans h2 h1

theorem bigDesc_total : ∀ a b : BigRow, bigDesc a b ∨ bigDesc b a :=
  fun a b => le_total b.bigBass a.bigBass

theorem bigDesc_trans : ∀ a b c : BigRow, bigDesc a b → bigDesc b c → bigDesc a c :=
  fun _ _ _ h1 h2 => le_trans h2 h1

theorem bagDesc_total : ∀ a b : BagRow, bagDesc a b ∨ bagDesc b a :=
  fun a b => le_total b.totalBag a.totalBag

theorem bagDesc_trans : ∀ a b c : BagRow, bagDesc a b → bagDesc b c → bagDesc a c :=
  fun _ _ _ h1 h2 => le_trans h2 h1

theorem byCreatedDesc_total : ∀ a b : Upload, byCreatedDesc a b ∨ byCreatedDesc b a :=
  fun a b => Nat.le_total b.createdAt a.createdAt

theorem byCreatedDesc_trans :
    ∀ a b c : Upload, byCreatedDesc a b → byCreatedDesc b c → byCreatedDesc a c :=
  fun _ _ _ h1 h2 => Nat.le_trans h2 h1

theorem periodDesc_total : ∀ a b : PeriodEntry, periodDesc a b ∨ periodDesc b a := by
  intro a b
  rcases lt_trichotomy b.totalBag a.totalBag with hlt | heq | hgt
  · exact Or.inl (Or.inl hlt)
  · rcases le_total b.bigBass a.bigBass with hle | hle
    · exact Or.inl (Or.inr ⟨heq, hle⟩)
    · exact Or.inr (Or.inr ⟨heq.symm, hle⟩)
  · exact Or.inr (Or.inl hgt)

theorem periodDesc_trans :
    ∀ a b c : PeriodEntry, periodDesc a b → periodDesc b c → periodDesc a c := by
  intro a b c h1 h2
  rcases h1 with h1 | ⟨h1e, h1le⟩
  · rcases h2 with h2 | ⟨h2e, _⟩
    · exact Or.inl (lt_trans h2 h1)
    · exact Or.inl (h2e ▸ h1)
  · rcases h2 with h2 | ⟨h2e, h2le⟩
    · exact Or.inl (h1e ▸ h2)
    · exact Or.inr ⟨h2e.trans h1e, le_trans h2le h1le⟩

/-- An angler has a nonempty weight list exactly when some approved catch
of the event is theirs. -/
theorem weights_ne_nil_iff (g tid u : Nat) (db : DB) :
    anglerApprovedWeights g tid u db ≠ [] ↔ u ∈ (approvedCatches g tid db).map (·.user) := by
  unfold anglerApprovedWeights
  constructor
  · intro h
    cases hfe : (approvedCatches g tid db).filter (·.user == u) with
    | nil => rw [hfe] at h; simp at h
    | cons c cs =>
      have hc : c ∈ (approvedCatches g tid db).filter (·.user == u) := by
        rw [hfe]; exact List.mem_cons_self _ _
      have hm := List.mem_filter.mp hc
      exact List.mem_map.mpr ⟨c, hm.1, by simpa using hm.2⟩
  · intro h hnil
    obtain ⟨c, hc, hcu⟩ := List.mem_map.mp h
    have hmem : c ∈ (approvedCatches g tid db).filter (·.user == u) :=
      List.mem_filter.mpr ⟨hc, by simp [hcu]⟩
    rw [List.map_eq_nil_iff] at hnil
    rw [hnil] at hmem
    simp at hmem

/-- Every row of the grouped big bass output carries the maximum approved
weight of its angler. -/
theorem bigBassAgg_isMax (g tid : Nat) (db : DB) :
    ∀ row ∈ bigBassAgg g tid db, IsMaxOf row.bigBass (anglerApprovedWeights g tid row.user db) := by
  intro row hrow
  have h2 : row ∈ (usersAsc ((approvedCatches g tid db).map (·.user))).map
      (fun u => (⟨u, maxD (((approvedCatches g tid db).filter (·.user == u)).map (·.weight))⟩ :
        BigRow)) := hrow
  obtain ⟨v, hv, rfl⟩ := List.mem_map.mp h2
  have hne : anglerApprovedWeights g tid v db ≠ [] :=
    (weights_ne_nil_iff g tid v db).mpr ((mem_usersAsc _ v).mp hv)
  obtain ⟨w, ws, hW⟩ := List.exists_cons_of_ne_nil hne
  show IsMaxOf (maxD (anglerApprovedWeights g tid v db)) (anglerApprovedWeights g tid v db)
  rw [hW]
  exact maxD_spec w ws

/-- C2.  Every angler with an approved catch has exactly one row in the
grouped total bag output; that row sums exactly the five heaviest approved
weights of the angler (all of them when there are fewer than five) and its
fish count is the minimum of the catch count and five; every row of the
capped leaderboard is a grouped row and never counts more than five. -/
theorem c2_total_bag_top_five (db : DB) (g tid u : Nat)
    (h : anglerApprovedWeights g tid u db ≠ []) :
    (∃ row : BagRow, (bagAgg g tid db).filter (fun r => r.user == u) = [row] ∧
        SumsTopFive (anglerApprovedWeights g tid u db) row) ∧
    ∀ row ∈ getTotalBagLeaderboard g tid db, row ∈ bagAgg g tid db ∧ row.fishCount ≤ 5 := by
  constructor
  · have hu : u ∈ usersAsc ((approvedCatches g tid db).map (·.user)) :=
      (mem_usersAsc _ u).mpr ((weights_ne_nil_iff g tid u db).mp h)
    refine ⟨⟨u, (topWeights (anglerApprovedWeights g tid u db)).sum,
        (topWeights (anglerApprovedWeights g tid u db)).length⟩, ?_, ?_, ?_⟩
    · exact filter_map_eq_single
        (fun v => (⟨v,
          (topWeights (((approvedCatches g tid db).filter (·.user == v)).map (·.weight))).sum,
          (topWeights (((approvedCatches g tid db).filter (·.user == v)).map (·.weight))).length⟩ :
            BagRow))
        BagRow.user (fun _ => rfl) _ (usersAsc_nodup _) u hu
    · show (topWeights (anglerApprovedWeights g tid u db)).length =
        min (anglerApprovedWeights g tid u db).length 5
      rw [topWeights, List.length_take, List.length_insertionSort, Nat.min_comm]
    · refine ⟨(List.insertionSort ratDesc (anglerApprovedWeights g tid u db)).take 5,
        (List.insertionSort ratDesc (anglerApprovedWeights g tid u db)).drop 5, ?_, ?_, ?_, rfl⟩
      · rw [List.take_append_drop]
        exact (List.perm_insertionSort ratDesc _).symm
      · rw [List.length_take, List.length_insertionSort, Nat.min_comm]
      · intro x hx y hy
        have hsorted := pairwise_insertionSort_of ratDesc ratDesc_total ratDesc_trans
          (anglerApprovedWeights g tid u db)
        rw [← List.take_append_drop 5
          (List.insertionSort ratDesc (anglerApprovedWeights g tid u db))] at hsorted
        exact (List.pairwise_append.mp hsorted).2.2 y hy x hx
  · intro row hrow
    have h1 : row ∈ List.insertionSort bagDesc (bagAgg g tid db) :=
      (List.take_sublist 25 _).subset hrow
    have h2 : row ∈ bagAgg g tid db := (List.mem_insertionSort bagDesc).mp h1
    refine ⟨h2, ?_⟩
    have h3 : row ∈ (usersAsc ((approvedCatches g tid db).map (·.user))).map
        (fun v => (⟨v,
          (topWeights (((approvedCatches g tid db).filter (·.user == v)).map (·.weight))).sum,
          (topWeights (((approvedCatches g tid db).filter (·.user == v)).map (·.weight))).length⟩ :
            BagRow)) := h2
    obtain ⟨v, _, rfl⟩ := List.mem_map.mp h3
    show (topWeights _).length ≤ 5
    rw [topWeights, List.length_take]
    exact Nat.min_le_left 5 _

/-- C3.  The big bass ranking lists exactly the anglers having an approved
catch (before the cap), reports each listed angler's maximum approved
weight, is sorted by weight descending with ties by user id ascending, and
has at most 25 rows. -/
theorem c3_big_bass (db : DB) (g tid : Nat) :
    (∀ u : Nat, anglerApprovedWeights g tid u db ≠ [] ↔
      ∃ row ∈ bigBassAgg g tid db, row.user = u) ∧
    (∀ row ∈ getBigBassLeaderboard g tid db,
      IsMaxOf row.bigBass (anglerApprovedWeights g tid row.user db)) ∧
    (getBigBassLeaderboard g tid db).Pairwise BigOrder ∧
    (getBigBassLeaderboard g tid db).length ≤ 25 := by
  refine ⟨?_, ?_, ?_, ?_⟩
  · intro u
    constructor
    · intro h
      have hu : u ∈ usersAsc ((approvedCatches g tid db).map (·.user)) :=
        (mem_usersAsc _ u).mpr ((weights_ne_nil_iff g tid u db).mp h)
      exact ⟨⟨u, maxD (((approvedCatches g tid db).filter (·.user == u)).map (·.weight))⟩,
        List.mem_map_of_mem _ hu, rfl⟩
    · intro hex
      obtain ⟨row, hrow, hru⟩ := hex
      have h2 : row ∈ (usersAsc ((approvedCatches g tid db).map (·.user))).map
          (fun v => (⟨v, maxD (((approvedCatches g tid db).filter (·.user == v)).map (·.weight))⟩ :
            BigRow)) := hrow
      obtain ⟨v, hv, rfl⟩ := List.mem_map.mp h2
      have hvu : v = u := hru
      rw [← hvu]
      exact (weights_ne_nil_iff g tid v db).mpr ((mem_usersAsc _ v).mp hv)
  · intro row hrow
    have h1 : row ∈ List.insertionSort bigDesc (bigBassAgg g tid db) :=
      (List.take_sublist 25 _).subset hrow
    exact bigBassAgg_isMax g tid db row ((List.mem_insertionSort bigDesc).mp h1)
  · have hin : (bigBassAgg g tid db).Pairwise (fun a b : BigRow => a.user < b.user) :=
      List.pairwise_map.mpr (usersAsc_sorted _)
    have htie := pairwise_insertionSort_tie bigDesc (fun a b : BigRow => a.user < b.user)
      bigDesc_total bigDesc_trans _ hin
    have hBO : (List.insertionSort bigDesc (bigBassAgg g tid db)).Pairwise BigOrder := by
      refine htie.imp ?_
      intro a b hab
      rcases lt_or_le b.bigBass a.bigBass with hlt | hle
      · exact Or.inl hlt
      · exact Or.inr ⟨le_antisymm hle hab.1, hab.2 hle⟩
    exact hBO.sublist (List.take_sublist 25 _)
  · rw [getBigBassLeaderboard, List.length_take]
    exact Nat.min_le_left 25 _


/-!  The snapshot upsert machinery (claim C4). -/

/-- The three value columns the snapshot upsert overwrites. -/
def resVal (r : ResultRow) : ℚ × ℚ × Nat := (r.bigBass, r.totalBag, r.fishCount)

theorem rkey_setVals (r x : ResultRow) : rkey (setVals r x) = rkey x := rfl

theorem resVal_setVals (r x : ResultRow) : resVal (setVals r x) = resVal r := rfl

theorem setVals_self (r x : ResultRow) (h : resVal x = resVal r) : setVals r x = x := by
  cases x
  cases r
  simp only [resVal, Prod.mk.injEq] at h
  simp [setVals, h.1, h.2.1, h.2.2]

/-- Some row of the list has this key, and every row with this key has
these values. -/
def KeyVals (k : Nat × Nat) (v : ℚ × ℚ × Nat) (rs : List ResultRow) : Prop :=
  (∃ x ∈ rs, rkey x = k) ∧ ∀ x ∈ rs, rkey x = k → resVal x = v

/-- Upserting a row whose key and values are already present changes
nothing. -/
theorem upsert_eq_self (r : ResultRow) (rs : List ResultRow)
    (h : KeyVals (rkey r) (resVal r) rs) : upsertResult r rs = rs := by
  obtain ⟨⟨x, hx, hxk⟩, hvals⟩ := h
  have hany : rs.any (fun y => rkey y == rkey r) = true :=
    List.any_eq_true.mpr ⟨x, hx, by simp [hxk]⟩
  unfold upsertResult
  rw [if_pos hany]
  have hid : ∀ y ∈ rs, (if rkey y == rkey r then setVals r y else y) = y := by
    intro y hy
    by_cases hk : rkey y = rkey r
    · rw [if_pos (by simp [hk])]
      exact setVals_self r y (hvals y hy hk)
    · rw [if_neg (by simp [hk])]
  calc rs.map (fun y => if rkey y == rkey r then setVals r y else y)
      = rs.map id := List.map_congr_left hid
    _ = rs := List.map_id rs

/-- After an upsert, the upserted key carries the upserted values. -/
theorem keyVals_upsert_self (r : ResultRow) (rs : List ResultRow) :
    KeyVals (rkey r) (resVal r) (upsertResult r rs) := by
  unfold upsertResult
  by_cases hany : rs.any (fun y => rkey y == rkey r) = true
  · rw [if_pos hany]
    obtain ⟨x, hx, hxkb⟩ := List.any_eq_true.mp hany
    have hxk : rkey x = rkey r := by simpa using hxkb
    constructor
    · refine ⟨setVals r x, List.mem_map.mpr ⟨x, hx, ?_⟩, by rw [rkey_setVals]; exact hxk⟩
      show (if (rkey x == rkey r) = true then setVals r x else x) = setVals r x
      rw [if_pos (by simp [hxk])]
    · intro y hy hyk
      obtain ⟨z, hz, hzy⟩ := List.mem_map.mp hy
      by_cases hzk : rkey z = rkey r
      · rw [if_pos (by simp [hzk])] at hzy
        rw [← hzy, resVal_setVals]
      · rw [if_neg (by simp [hzk])] at hzy
        rw [← hzy] at hyk
        exact absurd hyk hzk
  · rw [if_neg hany]
    constructor
    · exact ⟨r, List.mem_append_right _ (List.mem_singleton.mpr rfl), rfl⟩
    · intro y hy hyk
      rcases List.mem_append.mp hy with hys | hyr
      · exact absurd (List.any_eq_true.mpr ⟨y, hys, by simp [hyk]⟩) hany
      · rw [List.mem_singleton.mp hyr]

/-- Upserting a different key preserves the key and values of another. -/
theorem keyVals_upsert_other (r' : ResultRow) (k : Nat × Nat) (v : ℚ × ℚ × Nat)
    (hne : rkey r' ≠ k) (rs : List ResultRow) (h : KeyVals k v rs) :
    KeyVals k v (upsertResult r' rs) := by
  obtain ⟨⟨x, hx, hxk⟩, hvals⟩ := h
  unfold upsertResult
  by_cases hany : rs.any (fun y => rkey y == rkey r') = true
  · rw [if_pos hany]
    constructor
    · refine ⟨x, List.mem_map.mpr ⟨x, hx, ?_⟩, hxk⟩
      show (if (rkey x == rkey r') = true then setVals r' x else x) = x
      rw [if_neg (show ¬((rkey x == rkey r') = true) by
        simp only [beq_iff_eq, hxk]
        exact fun hc => hne hc.symm)]
    · intro y hy hyk
      obtain ⟨z, hz, hzy⟩ := List.mem_map.mp hy
      by_cases hzk : rkey z = rkey r'
      · rw [if_pos (by simp [hzk])] at hzy
        rw [← hzy, rkey_setVals] at hyk
        exact absurd (hzk.symm.trans hyk) hne
      · rw [if_neg (by simp [hzk])] at hzy
        rw [← hzy] at hyk
        rw [← hzy]
        exact hvals z hz hyk
  · rw [if_neg hany]
    constructor
    · exact ⟨x, List.mem_append_left _ hx, hxk⟩
    · intro y hy hyk
      rcases List.mem_append.mp hy with hys | hyr
      · exact hvals y hys hyk
      · rw [List.mem_singleton.mp hyr] at hyk
        exact absurd hyk hne

/-- A batch of upserts all of whose rows are already present with their
values is the identity. -/
theorem applyRows_eq_self :
    ∀ (rows rs : List ResultRow), (∀ r ∈ rows, KeyVals (rkey r) (resVal r) rs) →
      applyRows rows rs = rs := by
  intro rows
  induction rows with
  | nil => intro rs _; rfl
  | cons r rest ih =>
    intro rs h
    show applyRows rest (upsertResult r rs) = rs
    rw [upsert_eq_self r rs (h r (List.mem_cons_self _ _))]
    exact ih rs fun r' hr' => h r' (List.mem_cons_of_mem _ hr')

/-- A batch of upserts on other keys preserves a key and its values. -/
theorem keyVals_applyRows_other :
    ∀ (rows : List ResultRow) (k : Nat × Nat) (v : ℚ × ℚ × Nat) (rs : List ResultRow),
      (∀ r ∈ rows, rkey r ≠ k) → KeyVals k v rs → KeyVals k v (applyRows rows rs) := by
  intro rows
  induction rows with
  | nil => intro k v rs _ h; exact h
  | cons r rest ih =>
    intro k v rs hne h
    show KeyVals k v (applyRows rest (upsertResult r rs))
    exact ih k v _ (fun r' h' => hne r' (List.mem_cons_of_mem _ h'))
      (keyVals_upsert_other r k v (hne r (List.mem_cons_self _ _)) rs h)

/-- After a batch of upserts with pairwise distinct keys, every upserted
row is present with its values. -/
theorem keyVals_applyRows :
    ∀ (rows rs : List ResultRow), (rows.map rkey).Nodup →
      ∀ r ∈ rows, KeyVals (rkey r) (resVal r) (applyRows rows rs) := by
  intro rows
  induction rows with
  | nil => intro rs _ r hr; simp at hr
  | cons r0 rest ih =>
    intro rs hnd r hr
    rw [List.map_cons, List.nodup_cons] at hnd
    show KeyVals (rkey r) (resVal r) (applyRows rest (upsertResult r0 rs))
    rcases List.mem_cons.mp hr with hr0 | hrr
    · rw [hr0]
      refine keyVals_applyRows_other rest _ _ _ ?_ (keyVals_upsert_self r0 rs)
      intro r' h' hc
      exact hnd.1 (hc ▸ List.mem_map_of_mem rkey h')
    · exact ih _ hnd.2 r hrr

/-- Re-applying the same distinct-key batch of upserts changes nothing. -/
theorem applyRows_idem (rows rs : List ResultRow) (hnd : (rows.map rkey).Nodup) :
    applyRows rows (applyRows rows rs) = applyRows rows rs :=
  applyRows_eq_self rows _ fun r hr => keyVals_applyRows rows rs hnd r hr

theorem dedupFirst_aux (l : List Nat) :
    ∀ acc : List Nat, acc.Nodup →
      (l.foldl (fun acc u => if u ∈ acc then acc else acc ++ [u]) acc).Nodup := by
  induction l with
  | nil => intro acc h; exact h
  | cons u l ih =>
    intro acc h
    show (l.foldl _ (if u ∈ acc then acc else acc ++ [u])).Nodup
    by_cases hm : u ∈ acc
    · rw [if_pos hm]; exact ih acc h
    · rw [if_neg hm]
      refine ih _ ?_
      simp [List.nodup_append, h, hm]

theorem dedupFirst_nodup (l : List Nat) : (dedupFirst l).Nodup :=
  dedupFirst_aux l [] List.nodup_nil

/-- The snapshot batch has pairwise distinct upsert keys. -/
theorem snapshotRows_rkey_nodup (g tid : Nat) (db : DB) :
    ((snapshotRows g tid db).map rkey).Nodup := by
  unfold snapshotRows
  rw [List.map_map]
  refine List.Nodup.map ?_ (dedupFirst_nodup _)
  intro a b hab
  have hab2 : ((tid, a) : Nat × Nat) = (tid, b) := hab
  exact (Prod.ext_iff.mp hab2).2

/-- C4.  snapshotTournamentResults is idempotent: running it twice in a
row, with no intervening ledger change, leaves exactly the database that
one run produces; the upsert keyed by the unique (tournament, angler)
constraint neither duplicates nor corrupts rows. -/
theorem c4_snapshot_idempotent (g tid : Nat) (db : DB) :
    snapshotTournamentResults g tid (snapshotTournamentResults g tid db) =
      snapshotTournamentResults g tid db := by
  have h := applyRows_idem (snapshotRows g tid db) db.results (snapshotRows_rkey_nodup g tid db)
  show ({ snapshotTournamentResults g tid db with
      results := applyRows (snapshotRows g tid db)
        (applyRows (snapshotRows g tid db) db.results) } : DB) = snapshotTournamentResults g tid db
  rw [h]
  rfl


/-!  State preservation facts for the trace semantics (claims C1, C10). -/

/-- The weigh-in modal handler never touches the tournaments, results or
uploads tables. -/
theorem weighinModal_state (cfg : Option Nat) (g ch u : Nat) (w : Option ℚ)
    (n : Option String) (now : Nat) (db : DB) :
    ((weighinModalHandler cfg g ch u w n now db).1).tournaments = db.tournaments ∧
    ((weighinModalHandler cfg g ch u w n now db).1).results = db.results ∧
    ((weighinModalHandler cfg g ch u w n now db).1).uploads = db.uploads := by
  refine ⟨?_, ?_, ?_⟩ <;> (unfold weighinModalHandler; repeat' split) <;> rfl

/-- Image counting cannot grow under a function that only turns matching
elements into non-matching ones. -/
theorem countP_map_le {α : Type} (f : α → α) (p : α → Bool)
    (h : ∀ x, p (f x) = true → p x = true) :
    ∀ l : List α, (l.map f).countP p ≤ l.countP p := by
  intro l
  induction l with
  | nil => simp
  | cons a l ih =>
    rw [List.map_cons, List.countP_cons, List.countP_cons]
    by_cases ha : p (f a) = true
    · rw [if_pos ha, if_pos (h a ha)]
      exact Nat.add_le_add ih (le_refl 1)
    · rw [if_neg ha, Nat.add_zero]
      exact le_trans ih (Nat.le_add_right _ _)

/-- Opening a tournament leaves exactly one active tournament of that
guild. -/
theorem activeCount_start_self (g : Nat) (name : String) (now : Nat) (db : DB) :
    activeCount g (startTournament g name now db).2 = 1 := by
  show ((db.tournaments.map fun t : Tournament =>
      if t.guild == g && t.isActive then
        { t with isActive := false, endedAt := some (t.endedAt.getD now) }
      else t) ++ ([⟨db.nextTournamentId, g, name, true, now, none⟩] : List Tournament)).countP
        (fun t : Tournament => t.guild == g && t.isActive) = 1
  rw [List.countP_append]
  have h0 : (db.tournaments.map fun t : Tournament =>
      if t.guild == g && t.isActive then
        { t with isActive := false, endedAt := some (t.endedAt.getD now) }
      else t).countP (fun t => t.guild == g && t.isActive) = 0 := by
    rw [List.countP_eq_zero]
    intro x hx
    obtain ⟨t, _, rfl⟩ := List.mem_map.mp hx
    by_cases hc : (t.guild == g && t.isActive) = true
    · rw [if_pos hc]; simp
    · rw [if_neg hc]; simpa using hc
  rw [h0]
  simp [List.countP_cons]

/-- Opening a tournament cannot raise the active count of another guild. -/
theorem activeCount_start_other (g2 g : Nat) (hne : g2 ≠ g) (name : String) (now : Nat)
    (db : DB) :
    activeCount g2 (startTournament g name now db).2 ≤ activeCount g2 db := by
  show ((db.tournaments.map fun t : Tournament =>
      if t.guild == g && t.isActive then
        { t with isActive := false, endedAt := some (t.endedAt.getD now) }
      else t) ++ ([⟨db.nextTournamentId, g, name, true, now, none⟩] : List Tournament)).countP
        (fun t : Tournament => t.guild == g2 && t.isActive) ≤
      db.tournaments.countP (fun t => t.guild == g2 && t.isActive)
  rw [List.countP_append]
  have h1 : ([(⟨db.nextTournamentId, g, name, true, now, none⟩ : Tournament)]).countP
      (fun t => t.guild == g2 && t.isActive) = 0 := by
    have hb : (g == g2) = false := beq_eq_false_iff_ne.mpr (Ne.symm hne)
    simp [List.countP_cons, hb]
  rw [h1, Nat.add_zero]
  apply countP_map_le
  intro t ht
  by_cases hc : (t.guild == g && t.isActive) = true
  · simp [hc] at ht
  · simpa [hc] using ht

/-- Closing a tournament cannot raise any active count. -/
theorem activeCount_end_le (g2 g tid now : Nat) (db : DB) :
    activeCount g2 (endTournament g tid now db) ≤ activeCount g2 db := by
  show (db.tournaments.map fun t : Tournament =>
      if t.guild == g && t.id == tid then
        { t with isActive := false, endedAt := some now }
      else t).countP (fun t => t.guild == g2 && t.isActive) ≤
      db.tournaments.countP (fun t => t.guild == g2 && t.isActive)
  apply countP_map_le
  intro t ht
  by_cases hc : (t.guild == g && t.id == tid) = true
  · simp [hc] at ht
  · simpa [hc] using ht

/-- One handler step preserves the at-most-one-active invariant. -/
theorem execOp_activeCount (s : DB × List Nat) (op : Op)
    (h : ∀ g, activeCount g s.1 ≤ 1) : ∀ g, activeCount g (execOp s op).1 ≤ 1 := by
  obtain ⟨db, tg⟩ := s
  cases op with
  | start g name now =>
    intro g2
    by_cases hg : g2 = g
    · rw [hg]; exact le_of_eq (activeCount_start_self g name now db)
    · exact le_trans (activeCount_start_other g2 g hg name now db) (h g2)
  | endCmd g now =>
    intro g2
    show activeCount g2 (match getActiveTournament g db with
      | none => (db, tg)
      | some a =>
        (snapshotTournamentResults g a.id (endTournament g a.id now db), tg ++ [a.id])).1 ≤ 1
    cases getActiveTournament g db with
    | none => exact h g2
    | some a => exact le_trans (activeCount_end_le g2 g a.id now db) (h g2)
  | postUpload g ch u m img now => exact h
  | submitWeighin cfg g ch u w n now =>
    intro g2
    show ((weighinModalHandler cfg g ch u w n now db).1).tournaments.countP
      (fun t => t.guild == g2 && t.isActive) ≤ 1
    rw [(weighinModal_state cfg g ch u w n now db).1]
    exact h g2
  | approve g wid => exact h
  | reject g wid => exact h

theorem activeInv_trace : ∀ (ops : List Op) (s : DB × List Nat),
    (∀ g, activeCount g s.1 ≤ 1) → ∀ g, activeCount g (ops.foldl execOp s).1 ≤ 1 := by
  intro ops
  induction ops with
  | nil => intro s h; exact h
  | cons op ops ih => intro s h; exact ih (execOp s op) (execOp_activeCount s op h)

/-- C1.  After any command sequence every guild has at most one active
tournament, and startTournament closes every previously active tournament
of the guild, stamping ended_at only when it was still unset. -/
theorem c1_single_active :
    (∀ (ops : List Op) (g : Nat), activeCount g (execTrace ops).1 ≤ 1) ∧
    ∀ (db : DB) (g : Nat) (name : String) (now : Nat),
      ∀ t ∈ db.tournaments, t.guild = g → t.isActive = true →
        ∃ t2 ∈ (startTournament g name now db).2.tournaments,
          t2.id = t.id ∧ t2.isActive = false ∧ t2.endedAt = some (t.endedAt.getD now) := by
  constructor
  · intro ops g
    exact activeInv_trace ops (emptyDB, []) (fun g2 => by simp [activeCount, emptyDB]) g
  · intro db g name now t ht htg hta
    refine ⟨{ t with isActive := false, endedAt := some (t.endedAt.getD now) }, ?_, rfl, rfl, rfl⟩
    show _ ∈ (db.tournaments.map fun t : Tournament =>
      if t.guild == g && t.isActive then
        { t with isActive := false, endedAt := some (t.endedAt.getD now) }
      else t) ++ ([⟨db.nextTournamentId, g, name, true, now, none⟩] : List Tournament)
    apply List.mem_append_left
    refine List.mem_map.mpr ⟨t, ht, ?_⟩
    show (if (t.guild == g && t.isActive) = true then
        { t with isActive := false, endedAt := some (t.endedAt.getD now) }
      else t) = { t with isActive := false, endedAt := some (t.endedAt.getD now) }
    rw [if_pos (by simp [htg, hta])]

/-- A single upsert only creates or rewrites rows of its own key. -/
theorem upsert_mem_or (r : ResultRow) (rs : List ResultRow) :
    ∀ x ∈ upsertResult r rs, x ∈ rs ∨ x.tournamentId = r.tournamentId := by
  intro x hx
  unfold upsertResult at hx
  by_cases hany : rs.any (fun y => rkey y == rkey r) = true
  · rw [if_pos hany] at hx
    obtain ⟨z, hz, hzx⟩ := List.mem_map.mp hx
    have hzx2 : (if (rkey z == rkey r) = true then setVals r z else z) = x := hzx
    by_cases hzk : rkey z = rkey r
    · right
      rw [if_pos (by simp [hzk])] at hzx2
      rw [← hzx2]
      show z.tournamentId = r.tournamentId
      exact (Prod.ext_iff.mp hzk).1
    · left
      rw [if_neg (by simp [hzk])] at hzx2
      rw [← hzx2]
      exact hz
  · rw [if_neg hany] at hx
    rcases List.mem_append.mp hx with h2 | h2
    · exact Or.inl h2
    · right
      rw [List.mem_singleton.mp h2]

theorem applyRows_mem_or : ∀ (rows rs : List ResultRow) (tid : Nat),
    (∀ r ∈ rows, r.tournamentId = tid) →
    ∀ x ∈ applyRows rows rs, x ∈ rs ∨ x.tournamentId = tid := by
  intro rows
  induction rows with
  | nil => intro rs tid _ x hx; exact Or.inl hx
  | cons r rest ih =>
    intro rs tid hall x hx
    have hx2 : x ∈ applyRows rest (upsertResult r rs) := hx
    rcases ih _ tid (fun r2 h2 => hall r2 (List.mem_cons_of_mem _ h2)) x hx2 with h2 | h2
    · rcases upsert_mem_or r rs x h2 with h3 | h3
      · exact Or.inl h3
      · exact Or.inr (h3.trans (hall r (List.mem_cons_self _ _)))
    · exact Or.inr h2

/-- Every snapshot row targets the snapshotted tournament. -/
theorem snapshotRows_tid (g tid : Nat) (db : DB) :
    ∀ r ∈ snapshotRows g tid db, r.tournamentId = tid := by
  intro r hr
  obtain ⟨u, _, rfl⟩ := List.mem_map.mp hr
  rfl

theorem snapshot_results_mem_or (g tid : Nat) (db : DB) :
    ∀ x ∈ (snapshotTournamentResults g tid db).results, x ∈ db.results ∨ x.tournamentId = tid :=
  fun x hx => applyRows_mem_or _ _ tid (snapshotRows_tid g tid db) x hx

/-- One handler step keeps every result row tagged by a snapshot target. -/
theorem execOp_results (s : DB × List Nat) (op : Op)
    (h : ∀ row ∈ s.1.results, row.tournamentId ∈ s.2) :
    ∀ row ∈ (execOp s op).1.results, row.tournamentId ∈ (execOp s op).2 := by
  obtain ⟨db, tg⟩ := s
  cases op with
  | start g name now => exact h
  | endCmd g now =>
    show ∀ row ∈ (match getActiveTournament g db with
      | none => (db, tg)
      | some a =>
        (snapshotTournamentResults g a.id (endTournament g a.id now db), tg ++ [a.id])).1.results,
        row.tournamentId ∈ (match getActiveTournament g db with
      | none => (db, tg)
      | some a =>
        (snapshotTournamentResults g a.id (endTournament g a.id now db), tg ++ [a.id])).2
    cases getActiveTournament g db with
    | none => exact h
    | some a =>
      intro row hrow
      rcases snapshot_results_mem_or g a.id (endTournament g a.id now db) row hrow with hold | hnew
      · exact List.mem_append_left _ (h row hold)
      · rw [hnew]
        exact List.mem_append_right _ (List.mem_singleton.mpr rfl)
  | postUpload g ch u m img now => exact h
  | submitWeighin cfg g ch u w n now =>
    intro row hrow
    have hrow2 : row ∈ ((weighinModalHandler cfg g ch u w n now db).1).results := hrow
    rw [(weighinModal_state cfg g ch u w n now db).2.1] at hrow2
    exact h row hrow2
  | approve g wid => exact h
  | reject g wid => exact h

/-- Every result row of a reachable state belongs to a tournament that the
end-tournament command snapshotted. -/
theorem results_from_snapshot_targets : ∀ (ops : List Op) (s : DB × List Nat),
    (∀ row ∈ s.1.results, row.tournamentId ∈ s.2) →
    ∀ row ∈ (ops.foldl execOp s).1.results, row.tournamentId ∈ (ops.foldl execOp s).2 := by
  intro ops
  induction ops with
  | nil => intro s h; exact h
  | cons op ops ih => intro s h; exact ih (execOp s op) (execOp_results s op h)

/-- C10.  Result rows exist only for tournaments the end command
snapshotted, so a tournament force-closed by startTournament (never an end
target) has none, and the period standings, which read only the results
and tournaments tables, cannot be affected by its catches. -/
theorem c10_force_closed_not_counted :
    (∀ (ops : List Op), ∀ row ∈ (execTrace ops).1.results,
      row.tournamentId ∈ (execTrace ops).2) ∧
    (∀ (ops : List Op) (tid : Nat), tid ∉ (execTrace ops).2 →
      ∀ row ∈ (execTrace ops).1.results, row.tournamentId ≠ tid) ∧
    (∀ (g m : Nat) (db : DB) (ws : List WeighIn) (us : List Upload),
      getMonthLeaderboard g m { db with weighins := ws, uploads := us } =
        getMonthLeaderboard g m db) ∧
    (∀ (g y : Nat) (db : DB) (ws : List WeighIn) (us : List Upload),
      getYearLeaderboard g y { db with weighins := ws, uploads := us } =
        getYearLeaderboard g y db) := by
  refine ⟨?_, ?_, ?_, ?_⟩
  · intro ops
    exact results_from_snapshot_targets ops (emptyDB, [])
      (by intro row hrow; simp [emptyDB] at hrow)
  · intro ops tid hnot row hrow hcontra
    exact hnot (hcontra ▸ results_from_snapshot_targets ops (emptyDB, [])
      (by intro row2 hrow2; simp [emptyDB] at hrow2) row hrow)
  · intro g m db ws us; rfl
  · intro g y db ws us; rfl


/-!  The active-tournament lookup and the end command (claims C5, C7). -/

theorem foldl_pick_mem (l : List Tournament) :
    ∀ (acc : Option Tournament) (a : Tournament),
      l.foldl (fun acc t =>
        match acc with
        | none => some t
        | some b => if b.id < t.id then some t else some b) acc = some a →
      acc = some a ∨ a ∈ l := by
  induction l with
  | nil => intro acc a h; exact Or.inl h
  | cons t l ih =>
    intro acc a h
    rcases ih _ a h with h2 | h2
    · cases acc with
      | none =>
        have h3 : (some t : Option Tournament) = some a := h2
        exact Or.inr (by rw [← Option.some.inj h3]; exact List.mem_cons_self _ _)
      | some b =>
        have h3 : (if b.id < t.id then some t else some b) = some a := h2
        by_cases hlt : b.id < t.id
        · rw [if_pos hlt] at h3
          exact Or.inr (by rw [← Option.some.inj h3]; exact List.mem_cons_self _ _)
        · rw [if_neg hlt] at h3
          exact Or.inl (by rw [← Option.some.inj h3])
    · exact Or.inr (List.mem_cons_of_mem _ h2)

/-- A successful active-tournament lookup returns an active row of the
guild. -/
theorem getActive_mem (g : Nat) (db : DB) (a : Tournament)
    (h : getActiveTournament g db = some a) :
    a ∈ db.tournaments ∧ a.guild = g ∧ a.isActive = true := by
  unfold getActiveTournament at h
  rcases foldl_pick_mem _ none a h with h2 | h2
  · simp at h2
  · have h3 := List.mem_filter.mp h2
    have h4 : a.guild = g ∧ a.isActive = true := by simpa using h3.2
    exact ⟨h3.1, h4.1, h4.2⟩

/-- C5 (amended).  snapshotTournamentResults itself has no closed-event
check, but the end-tournament command, its only caller, closes the active
tournament (is_active zero, ended_at stamped) before snapshotting it, and
the snapshot leaves the tournaments table unchanged. -/
theorem c5_end_cmd_snapshots_closed (db : DB) (g now : Nat) (a : Tournament)
    (h : getActiveTournament g db = some a) :
    (∃ t2 ∈ (endTournament g a.id now db).tournaments,
        t2.id = a.id ∧ t2.guild = g ∧ t2.isActive = false ∧ t2.endedAt = some now) ∧
    (∀ t2 ∈ (endTournament g a.id now db).tournaments,
        t2.guild = g → t2.id = a.id → t2.isActive = false ∧ t2.endedAt = some now) ∧
    (snapshotTournamentResults g a.id (endTournament g a.id now db)).tournaments =
      (endTournament g a.id now db).tournaments := by
  obtain ⟨hmem, hg, _⟩ := getActive_mem g db a h
  refine ⟨?_, ?_, rfl⟩
  · refine ⟨{ a with isActive := false, endedAt := some now }, ?_, rfl, hg, rfl, rfl⟩
    show _ ∈ db.tournaments.map fun t : Tournament =>
      if t.guild == g && t.id == a.id then { t with isActive := false, endedAt := some now }
      else t
    refine List.mem_map.mpr ⟨a, hmem, ?_⟩
    show (if (a.guild == g && a.id == a.id) = true then
        ({ a with isActive := false, endedAt := some now } : Tournament)
      else a) = _
    rw [if_pos (by simp [hg])]
  · intro t2 ht2 htg hti
    obtain ⟨t, ht, hteq⟩ := List.mem_map.mp ht2
    have hteq2 : (if (t.guild == g && t.id == a.id) = true then
        ({ t with isActive := false, endedAt := some now } : Tournament)
      else t) = t2 := hteq
    by_cases hc : (t.guild == g && t.id == a.id) = true
    · rw [if_pos hc] at hteq2
      rw [← hteq2]
      exact ⟨rfl, rfl⟩
    · rw [if_neg hc] at hteq2
      exact absurd (by rw [hteq2]; simp [htg, hti]) hc

/-- A database holding one still-open tournament with one approved catch. -/
def dbOpenSnap : DB :=
  { tournaments := [⟨1, 7, "Spring", true, 0, none⟩]
    weighins := [⟨1, 7, 10, 1, 42, 5, "p", none, "approved", 3⟩]
    uploads := []
    results := []
    nextTournamentId := 2
    nextWeighInId := 2
    nextUploadId := 1 }

/-- C5 counterexample: invoked directly on an event whose ended_at is
unset, snapshotTournamentResults does not fail and does write a result
row, contradicting the claim that it fails with EventStillOpen and writes
nothing. -/
theorem c5_counterexample :
    (∀ t ∈ dbOpenSnap.tournaments, t.endedAt = none ∧ t.isActive = true) ∧
    (snapshotTournamentResults 7 1 dbOpenSnap).results ≠ [] := by
  constructor
  · decide
  · decide

/-- C7.  The weigh-in modal, in its panel channel: no active tournament
answers the no-active error; a NaN or non-positive weight answers the
invalid-weight error; no resolvable recent upload answers the
missing-evidence error; each failure returns the database unchanged.  On
success it appends exactly one approved catch row tied to the active
tournament and answers its id. -/
theorem c7_submit_catch (cfg : Option Nat) (g ch u : Nat) (wRaw : Option ℚ)
    (notes : Option String) (now : Nat) (db : DB) (hch : wrongPanel cfg ch = false) :
    (getActiveTournament g db = none →
      weighinModalHandler cfg g ch u wRaw notes now db =
        (db, Except.error SubmitError.noActiveTournament)) ∧
    (∀ a, getActiveTournament g db = some a →
      (wRaw = none ∨ ∃ w, wRaw = some w ∧ w ≤ 0) →
      weighinModalHandler cfg g ch u wRaw notes now db =
        (db, Except.error SubmitError.invalidWeight)) ∧
    (∀ a w, getActiveTournament g db = some a → wRaw = some w → 0 < w →
      getLatestUpload g ch u 180 now db = none →
      weighinModalHandler cfg g ch u wRaw notes now db =
        (db, Except.error SubmitError.missingEvidence)) ∧
    (∀ a w up, getActiveTournament g db = some a → wRaw = some w → 0 < w →
      getLatestUpload g ch u 180 now db = some up →
      weighinModalHandler cfg g ch u wRaw notes now db =
        (insertWeighIn g ch a.id u w up.imageUrl notes now db, Except.ok db.nextWeighInId) ∧
      (insertWeighIn g ch a.id u w up.imageUrl notes now db).weighins =
        db.weighins ++
          [⟨db.nextWeighInId, g, ch, a.id, u, w, up.imageUrl, notes, "approved", now⟩]) := by
  have hneg : ¬(wrongPanel cfg ch = true) := by rw [hch]; exact Bool.false_ne_true
  refine ⟨?_, ?_, ?_, ?_⟩
  · intro hA
    unfold weighinModalHandler
    rw [if_neg hneg, hA]
  · intro a hA hw
    unfold weighinModalHandler
    rw [if_neg hneg, hA]
    rcases hw with hw | ⟨w, hw, hle⟩
    · rw [hw]
    · rw [hw]
      show (if w ≤ 0 then (db, Except.error SubmitError.invalidWeight)
        else match getLatestUpload g ch u 180 now db with
          | none => (db, Except.error SubmitError.missingEvidence)
          | some up =>
            (insertWeighIn g ch a.id u w up.imageUrl notes now db,
              Except.ok db.nextWeighInId)) =
        (db, Except.error SubmitError.invalidWeight)
      rw [if_pos hle]
  · intro a w hA hw hpos hup
    unfold weighinModalHandler
    rw [if_neg hneg, hA, hw]
    show (if w ≤ 0 then (db, Except.error SubmitError.invalidWeight)
      else match getLatestUpload g ch u 180 now db with
        | none => (db, Except.error SubmitError.missingEvidence)
        | some up =>
          (insertWeighIn g ch a.id u w up.imageUrl notes now db,
            Except.ok db.nextWeighInId)) =
      (db, Except.error SubmitError.missingEvidence)
    rw [if_neg (not_le.mpr hpos), hup]
  · intro a w up hA hw hpos hup
    refine ⟨?_, rfl⟩
    unfold weighinModalHandler
    rw [if_neg hneg, hA, hw]
    show (if w ≤ 0 then (db, Except.error SubmitError.invalidWeight)
      else match getLatestUpload g ch u 180 now db with
        | none => (db, Except.error SubmitError.missingEvidence)
        | some up2 =>
          (insertWeighIn g ch a.id u w up2.imageUrl notes now db,
            Except.ok db.nextWeighInId)) =
      (insertWeighIn g ch a.id u w up.imageUrl notes now db, Except.ok db.nextWeighInId)
    rw [if_neg (not_le.mpr hpos), hup]

/-- C8 (amended).  getLatestUpload returns none exactly when no upload of
the triple lies within the window; a returned row is a matching in-window
row of maximal created_at, and on identical timestamps the EARLIEST
inserted matching row (the lowest id) wins, not the highest. -/
theorem c8_latest_upload (db : DB) (g ch u mm now : Nat)
    (hids : db.uploads.Pairwise fun a b => a.id < b.id) :
    (getLatestUpload g ch u mm now db = none ↔
      db.uploads.filter (uploadMatches g ch u mm now) = []) ∧
    ∀ r, getLatestUpload g ch u mm now db = some r →
      r ∈ db.uploads ∧ uploadMatches g ch u mm now r = true ∧
      (∀ x ∈ db.uploads, uploadMatches g ch u mm now x = true →
        x.createdAt ≤ r.createdAt) ∧
      (∀ x ∈ db.uploads, uploadMatches g ch u mm now x = true →
        x.createdAt = r.createdAt → r.id ≤ x.id) := by
  have hfl : (db.uploads.filter (uploadMatches g ch u mm now)).Pairwise
      fun a b => a.id < b.id := hids.sublist (List.filter_sublist _)
  have hsorted := pairwise_insertionSort_tie byCreatedDesc (fun a b : Upload => a.id < b.id)
    byCreatedDesc_total byCreatedDesc_trans _ hfl
  constructor
  · unfold getLatestUpload
    rw [List.head?_eq_none_iff]
    constructor
    · intro h
      have hperm := (List.perm_insertionSort byCreatedDesc
        (db.uploads.filter (uploadMatches g ch u mm now))).symm
      rw [h] at hperm
      exact hperm.eq_nil
    · intro h
      rw [h]
      rfl
  · intro r hr
    unfold getLatestUpload at hr
    cases hS : List.insertionSort byCreatedDesc
        (db.uploads.filter (uploadMatches g ch u mm now)) with
    | nil => rw [hS] at hr; simp at hr
    | cons r0 rest =>
      rw [hS] at hr
      have hr0 : r0 = r := by simpa using hr
      rw [hS] at hsorted
      have hhead := List.pairwise_cons.mp hsorted
      have hmemsort : r0 ∈ List.insertionSort byCreatedDesc
          (db.uploads.filter (uploadMatches g ch u mm now)) := by
        rw [hS]; exact List.mem_cons_self _ _
      have hmemfl := (List.mem_insertionSort byCreatedDesc).mp hmemsort
      have hmf := List.mem_filter.mp hmemfl
      rw [← hr0]
      refine ⟨hmf.1, hmf.2, ?_, ?_⟩
      · intro x hx hxm
        have hxs : x ∈ List.insertionSort byCreatedDesc
            (db.uploads.filter (uploadMatches g ch u mm now)) :=
          (List.mem_insertionSort byCreatedDesc).mpr (List.mem_filter.mpr ⟨hx, hxm⟩)
        rw [hS] at hxs
        rcases List.mem_cons.mp hxs with hxr | hxrest
        · rw [hxr]
        · exact (hhead.1 x hxrest).1
      · intro x hx hxm heq
        have hxs : x ∈ List.insertionSort byCreatedDesc
            (db.uploads.filter (uploadMatches g ch u mm now)) :=
          (List.mem_insertionSort byCreatedDesc).mpr (List.mem_filter.mpr ⟨hx, hxm⟩)
        rw [hS] at hxs
        rcases List.mem_cons.mp hxs with hxr | hxrest
        · rw [hxr]
        · exact le_of_lt ((hhead.1 x hxrest).2 (le_of_eq heq.symm))

/-- Two uploads of the same angler in the same channel with identical
timestamps; insertion order gives them ids 1 and 2. -/
def dbTieUploads : DB :=
  { tournaments := []
    weighins := []
    uploads := [⟨1, 7, 10, 42, 100, "a", 50⟩, ⟨2, 7, 10, 42, 101, "b", 50⟩]
    results := []
    nextTournamentId := 1
    nextWeighInId := 1
    nextUploadId := 3 }

/-- C8 counterexample: on an identical-timestamp tie the query returns the
upload with id 1, the earliest inserted, not the highest id 2 the claim
requires. -/
theorem c8_counterexample :
    dbTieUploads.uploads.map (·.id) = [1, 2] ∧
    dbTieUploads.uploads.map (·.createdAt) = [50, 50] ∧
    (getLatestUpload 7 10 42 180 60 dbTieUploads).map (·.id) = some 1 ∧
    ¬(getLatestUpload 7 10 42 180 60 dbTieUploads).map (·.id) = some 2 := by
  refine ⟨rfl, rfl, ?_, ?_⟩ <;> decide

/-!  Guild scoping of the catch status update (claim C9). -/

theorem filter_other_guilds_aux (wid : Nat) (status : String) (g : Nat) :
    ∀ l : List WeighIn, (∀ w ∈ l, w.id = wid → w.guild = g) →
      (l.map fun w : WeighIn =>
          if w.id == wid then { w with status := status } else w).filter
        (fun w => w.guild != g) =
      l.filter (fun w => w.guild != g) := by
  intro l
  induction l with
  | nil => intro _; rfl
  | cons w l ih =>
    intro h
    rw [List.map_cons, List.filter_cons, List.filter_cons]
    by_cases hid : (w.id == wid) = true
    · rw [if_pos hid]
      have hg : w.guild = g := h w (List.mem_cons_self _ _) (by simpa using hid)
      rw [if_neg (show ¬((({ w with status := status } : WeighIn).guild != g) = true) by
        simp [hg])]
      rw [if_neg (show ¬((w.guild != g) = true) by simp [hg])]
      exact ih fun w2 h2 h3 => h w2 (List.mem_cons_of_mem _ h2) h3
    · rw [if_neg hid]
      rw [ih fun w2 h2 h3 => h w2 (List.mem_cons_of_mem _ h2) h3]

/-- Appending a row the predicate rejects changes nothing in the filter. -/
theorem filter_append_single {α : Type} (p : α → Bool) (l : List α) (a : α)
    (h : p a = false) : (l ++ [a]).filter p = l.filter p := by
  rw [List.filter_append]
  have h2 : ([a].filter p) = [] := by simp [h]
  rw [h2, List.append_nil]

/-- A guarded rewrite map preserves a filter that rejects every guarded
element before and after the rewrite. -/
theorem filter_ite_map {α : Type} (c : α → Bool) (m : α → α) (p : α → Bool) :
    ∀ l : List α, (∀ x ∈ l, c x = true → p x = false ∧ p (m x) = false) →
      (l.map fun x => if c x then m x else x).filter p = l.filter p := by
  intro l
  induction l with
  | nil => intro _; rfl
  | cons a l ih =>
    intro h
    rw [List.map_cons, List.filter_cons, List.filter_cons]
    by_cases hc : c a = true
    · rw [if_pos hc]
      obtain ⟨h1, h2⟩ := h a (List.mem_cons_self _ _) hc
      rw [if_neg (show ¬(p (m a) = true) by rw [h2]; exact Bool.false_ne_true)]
      rw [if_neg (show ¬(p a = true) by rw [h1]; exact Bool.false_ne_true)]
      exact ih fun x hx => h x (List.mem_cons_of_mem _ hx)
    · rw [if_neg hc]
      rw [ih fun x hx => h x (List.mem_cons_of_mem _ hx)]

/-- startTournament leaves every other guild's tournament rows unchanged. -/
theorem start_other_guilds (g : Nat) (name : String) (now : Nat) (db : DB) :
    (startTournament g name now db).2.tournaments.filter (fun t => t.guild != g) =
      db.tournaments.filter (fun t => t.guild != g) := by
  show ((db.tournaments.map fun t : Tournament =>
      if t.guild == g && t.isActive then
        { t with isActive := false, endedAt := some (t.endedAt.getD now) }
      else t) ++ ([⟨db.nextTournamentId, g, name, true, now, none⟩] : List Tournament)).filter
        (fun t => t.guild != g) = db.tournaments.filter (fun t => t.guild != g)
  rw [filter_append_single (fun t : Tournament => t.guild != g) _ _ (by simp)]
  refine filter_ite_map _ _ _ db.tournaments ?_
  intro x _ hc
  have hg : x.guild = g := ((show x.guild = g ∧ x.isActive = true by simpa using hc)).1
  exact ⟨by simp [hg], by simp [hg]⟩

/-- endTournament leaves every other guild's tournament rows unchanged. -/
theorem end_other_guilds (g tid now : Nat) (db : DB) :
    (endTournament g tid now db).tournaments.filter (fun t => t.guild != g) =
      db.tournaments.filter (fun t => t.guild != g) := by
  show (db.tournaments.map fun t : Tournament =>
      if t.guild == g && t.id == tid then { t with isActive := false, endedAt := some now }
      else t).filter (fun t => t.guild != g) = db.tournaments.filter (fun t => t.guild != g)
  refine filter_ite_map _ _ _ db.tournaments ?_
  intro x _ hc
  have hg : x.guild = g := ((show x.guild = g ∧ x.id = tid by simpa using hc)).1
  exact ⟨by simp [hg], by simp [hg]⟩

/-- Recording an upload only appends a row of the invoking guild. -/
theorem insertUpload_other_guilds (g ch u msgId : Nat) (img : String) (now : Nat) (db : DB) :
    (insertUpload g ch u msgId img now db).uploads.filter (fun x => x.guild != g) =
      db.uploads.filter (fun x => x.guild != g) := by
  show (db.uploads ++ ([⟨db.nextUploadId, g, ch, u, msgId, img, now⟩] : List Upload)).filter
      (fun x => x.guild != g) = db.uploads.filter (fun x => x.guild != g)
  exact filter_append_single _ _ _ (by simp)

/-- The weigh-in modal either leaves the ledger alone or appends one row
of the invoking guild. -/
theorem weighinModal_weighins (cfg : Option Nat) (g ch u : Nat) (w : Option ℚ)
    (n : Option String) (now : Nat) (db : DB) :
    ((weighinModalHandler cfg g ch u w n now db).1).weighins = db.weighins ∨
    ∃ (tid : Nat) (wq : ℚ) (img : String),
      ((weighinModalHandler cfg g ch u w n now db).1).weighins =
        db.weighins ++ [⟨db.nextWeighInId, g, ch, tid, u, wq, img, n, "approved", now⟩] := by
  unfold weighinModalHandler
  repeat' split
  all_goals first
    | exact Or.inl rfl
    | exact Or.inr ⟨_, _, _, rfl⟩

/-- The weigh-in modal leaves every other guild's catch rows unchanged. -/
theorem weighinModal_other_guilds (cfg : Option Nat) (g ch u : Nat) (w : Option ℚ)
    (n : Option String) (now : Nat) (db : DB) :
    ((weighinModalHandler cfg g ch u w n now db).1).weighins.filter (fun x => x.guild != g) =
      db.weighins.filter (fun x => x.guild != g) := by
  rcases weighinModal_weighins cfg g ch u w n now db with h | ⟨tid, wq, img, h⟩
  · rw [h]
  · rw [h]
    exact filter_append_single _ _ _ (by simp)

/-- Upserting a row of the owning guild preserves the ownership of the
snapshotted tournament. -/
theorem upsert_owner_inv (g tid : Nat) (r : ResultRow) (hg : r.guild = g)
    (rs : List ResultRow) (h : ∀ x ∈ rs, x.tournamentId = tid → x.guild = g) :
    ∀ x ∈ upsertResult r rs, x.tournamentId = tid → x.guild = g := by
  intro x hx
  unfold upsertResult at hx
  by_cases hany : rs.any (fun y => rkey y == rkey r) = true
  · rw [if_pos hany] at hx
    obtain ⟨z, hz, hzx⟩ := List.mem_map.mp hx
    have hzx2 : (if (rkey z == rkey r) = true then setVals r z else z) = x := hzx
    by_cases hzk : rkey z = rkey r
    · rw [if_pos (by simp [hzk])] at hzx2
      rw [← hzx2]
      intro htid
      exact h z hz htid
    · rw [if_neg (by simp [hzk])] at hzx2
      rw [← hzx2]
      exact h z hz
  · rw [if_neg hany] at hx
    rcases List.mem_append.mp hx with h2 | h2
    · exact h x h2
    · rw [List.mem_singleton.mp h2]
      intro _
      exact hg

/-- When the snapshotted tournament's existing rows belong to the invoking
guild, one upsert of that guild preserves every other guild's rows. -/
theorem upsert_other_guilds (g tid : Nat) (r : ResultRow) (hg : r.guild = g)
    (htid : r.tournamentId = tid) (rs : List ResultRow)
    (h : ∀ x ∈ rs, x.tournamentId = tid → x.guild = g) :
    (upsertResult r rs).filter (fun x => x.guild != g) =
      rs.filter (fun x => x.guild != g) := by
  unfold upsertResult
  by_cases hany : rs.any (fun y => rkey y == rkey r) = true
  · rw [if_pos hany]
    refine filter_ite_map _ _ _ rs ?_
    intro x hx hc
    have hxk : rkey x = rkey r := by simpa using hc
    have hxt : x.tournamentId = tid := ((Prod.ext_iff.mp hxk).1).trans htid
    have hxg : x.guild = g := h x hx hxt
    exact ⟨by simp [hxg], by simp [setVals, hxg]⟩
  · rw [if_neg hany]
    exact filter_append_single _ _ _ (by simp [hg])

theorem applyRows_other_guilds (g tid : Nat) :
    ∀ rows : List ResultRow, (∀ r ∈ rows, r.guild = g ∧ r.tournamentId = tid) →
      ∀ rs : List ResultRow, (∀ x ∈ rs, x.tournamentId = tid → x.guild = g) →
        (applyRows rows rs).filter (fun x => x.guild != g) =
          rs.filter (fun x => x.guild != g) := by
  intro rows
  induction rows with
  | nil => intro _ rs _; rfl
  | cons r rest ih =>
    intro hall rs h
    show (applyRows rest (upsertResult r rs)).filter (fun x => x.guild != g) =
      rs.filter (fun x => x.guild != g)
    rw [ih (fun r2 h2 => hall r2 (List.mem_cons_of_mem _ h2)) _
      (upsert_owner_inv g tid r (hall r (List.mem_cons_self _ _)).1 rs h)]
    exact upsert_other_guilds g tid r (hall r (List.mem_cons_self _ _)).1
      (hall r (List.mem_cons_self _ _)).2 rs h

/-- Every snapshot row carries the invoking guild and the snapshotted
tournament. -/
theorem snapshotRows_guild (g tid : Nat) (db : DB) :
    ∀ r ∈ snapshotRows g tid db, r.guild = g ∧ r.tournamentId = tid := by
  intro r hr
  obtain ⟨u, _, rfl⟩ := List.mem_map.mp hr
  exact ⟨rfl, rfl⟩

theorem snapshot_other_guilds (g tid : Nat) (db : DB)
    (h : ∀ r ∈ db.results, r.tournamentId = tid → r.guild = g) :
    (snapshotTournamentResults g tid db).results.filter (fun r => r.guild != g) =
      db.results.filter (fun r => r.guild != g) :=
  applyRows_other_guilds g tid (snapshotRows g tid db) (snapshotRows_guild g tid db)
    db.results h

/-- C9 (amended).  The original universal fails only through the id-keyed
updates.  Proved: startTournament and endTournament mutate only the
invoking guild's tournament rows; recording an upload and submitting a
weigh-in only append rows of the invoking guild; snapshotTournamentResults
touches the results table alone and, whenever every existing result row of
the snapshotted tournament belongs to the invoking guild, leaves every
other guild's result rows unchanged; setWeighInStatus touches no row with
a different id, no other table, and, whenever every catch with the
targeted id belongs to the invoking guild, leaves every other guild's rows
unchanged.  Invoked with a foreign catch id it does mutate the foreign
row, as the counterexample shows. -/
theorem c9_guild_scoped_status (db : DB) (g : Nat) :
    (∀ (name : String) (now : Nat),
      (startTournament g name now db).2.tournaments.filter (fun t => t.guild != g) =
        db.tournaments.filter (fun t => t.guild != g) ∧
      (startTournament g name now db).2.weighins = db.weighins ∧
      (startTournament g name now db).2.uploads = db.uploads ∧
      (startTournament g name now db).2.results = db.results) ∧
    (∀ tid now : Nat,
      (endTournament g tid now db).tournaments.filter (fun t => t.guild != g) =
        db.tournaments.filter (fun t => t.guild != g) ∧
      (endTournament g tid now db).weighins = db.weighins ∧
      (endTournament g tid now db).uploads = db.uploads ∧
      (endTournament g tid now db).results = db.results) ∧
    (∀ (ch u msgId : Nat) (img : String) (now : Nat),
      (insertUpload g ch u msgId img now db).uploads.filter (fun x => x.guild != g) =
        db.uploads.filter (fun x => x.guild != g) ∧
      (insertUpload g ch u msgId img now db).tournaments = db.tournaments ∧
      (insertUpload g ch u msgId img now db).weighins = db.weighins ∧
      (insertUpload g ch u msgId img now db).results = db.results) ∧
    (∀ (cfg : Option Nat) (ch u : Nat) (w : Option ℚ) (n : Option String) (now : Nat),
      ((weighinModalHandler cfg g ch u w n now db).1).weighins.filter
          (fun x => x.guild != g) =
        db.weighins.filter (fun x => x.guild != g) ∧
      ((weighinModalHandler cfg g ch u w n now db).1).tournaments = db.tournaments ∧
      ((weighinModalHandler cfg g ch u w n now db).1).results = db.results ∧
      ((weighinModalHandler cfg g ch u w n now db).1).uploads = db.uploads) ∧
    (∀ tid : Nat,
      ((∀ r ∈ db.results, r.tournamentId = tid → r.guild = g) →
        (snapshotTournamentResults g tid db).results.filter (fun r => r.guild != g) =
          db.results.filter (fun r => r.guild != g)) ∧
      (snapshotTournamentResults g tid db).tournaments = db.tournaments ∧
      (snapshotTournamentResults g tid db).weighins = db.weighins ∧
      (snapshotTournamentResults g tid db).uploads = db.uploads) ∧
    ∀ (wid : Nat) (status : String),
      ((∀ w ∈ db.weighins, w.id = wid → w.guild = g) →
        (setWeighInStatus wid status db).weighins.filter (fun w => w.guild != g) =
          db.weighins.filter (fun w => w.guild != g)) ∧
      (∀ w ∈ (setWeighInStatus wid status db).weighins, w.id ≠ wid → w ∈ db.weighins) ∧
      (setWeighInStatus wid status db).tournaments = db.tournaments ∧
      (setWeighInStatus wid status db).results = db.results ∧
      (setWeighInStatus wid status db).uploads = db.uploads := by
  refine ⟨?_, ?_, ?_, ?_, ?_, ?_⟩
  · intro name now
    exact ⟨start_other_guilds g name now db, rfl, rfl, rfl⟩
  · intro tid now
    exact ⟨end_other_guilds g tid now db, rfl, rfl, rfl⟩
  · intro ch u msgId img now
    exact ⟨insertUpload_other_guilds g ch u msgId img now db, rfl, rfl, rfl⟩
  · intro cfg ch u w n now
    exact ⟨weighinModal_other_guilds cfg g ch u w n now db,
      (weighinModal_state cfg g ch u w n now db).1,
      (weighinModal_state cfg g ch u w n now db).2.1,
      (weighinModal_state cfg g ch u w n now db).2.2⟩
  · intro tid
    exact ⟨snapshot_other_guilds g tid db, rfl, rfl, rfl⟩
  · intro wid status
    refine ⟨fun h => filter_other_guilds_aux wid status g db.weighins h, ?_, rfl, rfl, rfl⟩
    intro w hw hne
    obtain ⟨x, hx, hxw⟩ := List.mem_map.mp hw
    have hxw2 : (if (x.id == wid) = true then ({ x with status := status } : WeighIn) else x)
        = w := hxw
    by_cases hid : (x.id == wid) = true
    · rw [if_pos hid] at hxw2
      exact absurd (by rw [← hxw2]; show x.id = wid; simpa using hid) hne
    · rw [if_neg hid] at hxw2
      rw [← hxw2]
      exact hx

/-- A catch of guild 8, pending review. -/
def dbCrossGuild : DB :=
  { tournaments := []
    weighins := [⟨1, 8, 10, 1, 42, 5, "p", none, "pending", 0⟩]
    uploads := []
    results := []
    nextTournamentId := 1
    nextWeighInId := 2
    nextUploadId := 1 }

/-- C9 counterexample: the approve handler invoked from guild 7 with id 1
flips the status of the catch that belongs to guild 8, contradicting the
claim that an approval from one community never changes a catch of
another. -/
theorem c9_counterexample :
    dbCrossGuild.weighins.map (fun w => (w.guild, w.status)) = [(8, "pending")] ∧
    (approveWeighIn 7 1 dbCrossGuild).weighins.map (fun w => (w.guild, w.status)) =
      [(8, "approved")] ∧
    (7 : Nat) ≠ 8 := by
  refine ⟨rfl, rfl, by decide⟩


/-!  The period standings queries (claim C6). -/

theorem flatMap_single {α β : Type} (f : α → List β) (p : α → Bool) (q : α → β)
    (h : ∀ r, f r = if p r then [q r] else []) :
    ∀ rs : List α, rs.flatMap f = (rs.filter p).map q := by
  intro rs
  induction rs with
  | nil => rfl
  | cons r rs ih =>
    rw [List.flatMap_cons, List.filter_cons, h r]
    by_cases hp : p r = true
    · rw [if_pos hp, if_pos hp, List.map_cons, ih]
      rfl
    · rw [if_neg hp, if_neg hp, ih]
      rfl

theorem nodup_const_length_le_one {l : List Nat} (hl : l.Nodup) (n : Nat)
    (h : ∀ x ∈ l, x = n) : l.length ≤ 1 := by
  cases l with
  | nil => simp
  | cons a t =>
    cases t with
    | nil => simp
    | cons b t2 =>
      exfalso
      rw [List.nodup_cons] at hl
      apply hl.1
      have ha := h a (List.mem_cons_self _ _)
      have hb := h b (List.mem_cons_of_mem _ (List.mem_cons_self _ _))
      rw [ha, ← hb]
      exact List.mem_cons_self _ _

/-- With unique tournament ids, joining one result row against the
tournaments table yields at most one row: the image collapses to a
singleton exactly when a matching tournament exists. -/
theorem filter_id_singleton {β : Type} (ts : List Tournament)
    (hN : (ts.map (·.id)).Nodup) (n : Nat) (p : Tournament → Bool) (c : β) :
    (ts.filter fun t => t.id == n && p t).map (fun _ => c) =
      if ts.any (fun t => t.id == n && p t) then [c] else [] := by
  by_cases hany : ts.any (fun t => t.id == n && p t) = true
  · rw [if_pos hany]
    have hle : (ts.filter fun t => t.id == n && p t).length ≤ 1 := by
      have hsub : List.Sublist ((ts.filter fun t => t.id == n && p t).map (·.id))
          (ts.map (·.id)) := List.Sublist.map _ (List.filter_sublist _)
      have hnd2 := List.Sublist.nodup hsub hN
      have hall : ∀ x ∈ (ts.filter fun t => t.id == n && p t).map (·.id), x = n := by
        intro x hx
        obtain ⟨t, ht, rfl⟩ := List.mem_map.mp hx
        have h2 := (List.mem_filter.mp ht).2
        have h3 : (t.id == n) = true ∧ p t = true := by simpa using h2
        simpa using h3.1
      have hlen := nodup_const_length_le_one hnd2 n hall
      simpa using hlen
    obtain ⟨t, ht, htp⟩ := List.any_eq_true.mp hany
    have hmem : t ∈ ts.filter fun t => t.id == n && p t := List.mem_filter.mpr ⟨ht, htp⟩
    have hge : 1 ≤ (ts.filter fun t => t.id == n && p t).length :=
      List.length_pos.mpr (List.ne_nil_of_mem hmem)
    obtain ⟨t0, ht0⟩ := List.length_eq_one.mp (Nat.le_antisymm hle hge)
    rw [ht0]
    rfl
  · rw [if_neg hany]
    have hnil : ts.filter (fun t => t.id == n && p t) = [] := by
      rw [List.filter_eq_nil_iff]
      intro t ht hpt
      exact hany (List.any_eq_true.mpr ⟨t, ht, hpt⟩)
    rw [hnil]
    rfl

/-- With unique tournament ids the join of the period queries is exactly
the per-row filter the spec describes. -/
theorem periodJoinRows_eq (g : Nat) (sel : Tournament → Bool) (db : DB)
    (hN : (db.tournaments.map (·.id)).Nodup) :
    periodJoinRows g sel db = (periodResults g sel db).map
      (fun r => ⟨r.userId, r.totalBag, r.bigBass, r.tournamentId⟩) := by
  unfold periodJoinRows periodResults
  apply flatMap_single
  intro r
  by_cases hg : (r.guild == g) = true
  · rw [if_pos hg]
    rw [filter_id_singleton db.tournaments hN r.tournamentId sel]
    simp [hg]
  · rw [if_neg hg]
    simp [hg]

/-- The ids of the tournaments table stay unique in the spec-side filter;
grouped period entries agree with the spec-side aggregation, and the
output is ordered by summed bag then best bass, both descending. -/
theorem periodCore_correct (g : Nat) (sel : Tournament → Bool) (db : DB)
    (hN : (db.tournaments.map (·.id)).Nodup) :
    (∀ e ∈ periodLeaderboardCore g sel db, PeriodEntryCorrect g sel db e) ∧
    (periodLeaderboardCore g sel db).Pairwise periodDesc := by
  have hJ := periodJoinRows_eq g sel db hN
  constructor
  · intro e he
    have h2 : e ∈ (usersAsc ((periodJoinRows g sel db).map (·.userId))).map
        (fun u2 => (⟨u2,
          (((periodJoinRows g sel db).filter (·.userId == u2)).map (·.totalBag)).sum,
          maxD (((periodJoinRows g sel db).filter (·.userId == u2)).map (·.bigBass)),
          ((((periodJoinRows g sel db).filter (·.userId == u2)).map
            (·.tournamentId)).dedup).length⟩ : PeriodEntry)) :=
      (List.mem_insertionSort periodDesc).mp ((List.take_sublist 25 _).subset he)
    obtain ⟨u2, hu2, rfl⟩ := List.mem_map.mp h2
    have F1 : (periodJoinRows g sel db).filter (fun x => x.userId == u2) =
        ((periodResults g sel db).filter (fun r => r.userId == u2)).map
          (fun r => ⟨r.userId, r.totalBag, r.bigBass, r.tournamentId⟩) := by
      rw [hJ]
      exact List.filter_map _ _
    have hBne : (periodResults g sel db).filter (fun r => r.userId == u2) ≠ [] := by
      have hu3 := (mem_usersAsc _ u2).mp hu2
      obtain ⟨prow, hprow, hpu⟩ := List.mem_map.mp hu3
      rw [hJ] at hprow
      obtain ⟨r, hr, rfl⟩ := List.mem_map.mp hprow
      have hru : r.userId = u2 := hpu
      exact List.ne_nil_of_mem (List.mem_filter.mpr ⟨hr, by simp [hru]⟩)
    refine ⟨hBne, ?_, ?_, ?_⟩
    · show (((periodJoinRows g sel db).filter (fun x => x.userId == u2)).map
        (fun x => x.totalBag)).sum =
        (((periodResults g sel db).filter (fun r => r.userId == u2)).map
          (fun r => r.totalBag)).sum
      rw [F1, List.map_map]
      rfl
    · have F3 : ((periodJoinRows g sel db).filter (fun x => x.userId == u2)).map
          (fun x => x.bigBass) =
          ((periodResults g sel db).filter (fun r => r.userId == u2)).map
            (fun r => r.bigBass) := by
        rw [F1, List.map_map]
        rfl
      show IsMaxOf (maxD (((periodJoinRows g sel db).filter (fun x => x.userId == u2)).map
        (fun x => x.bigBass)))
        (((periodResults g sel db).filter (fun r => r.userId == u2)).map (fun r => r.bigBass))
      rw [F3]
      obtain ⟨w, ws, hW⟩ := List.exists_cons_of_ne_nil
        (fun hc => hBne (List.map_eq_nil_iff.mp hc) :
          ((periodResults g sel db).filter (fun r => r.userId == u2)).map
            (fun r => r.bigBass) ≠ [])
      rw [hW]
      exact maxD_spec w ws
    · show ((((periodJoinRows g sel db).filter (fun x => x.userId == u2)).map
        (fun x => x.tournamentId)).dedup).length =
        ((((periodResults g sel db).filter (fun r => r.userId == u2)).map
          (fun r => r.tournamentId)).dedup).length
      rw [F1, List.map_map]
      rfl
  · have hs := pairwise_insertionSort_of periodDesc periodDesc_total periodDesc_trans
      ((usersAsc ((periodJoinRows g sel db).map (·.userId))).map
        (fun u2 => (⟨u2,
          (((periodJoinRows g sel db).filter (·.userId == u2)).map (·.totalBag)).sum,
          maxD (((periodJoinRows g sel db).filter (·.userId == u2)).map (·.bigBass)),
          ((((periodJoinRows g sel db).filter (·.userId == u2)).map
            (·.tournamentId)).dedup).length⟩ : PeriodEntry)))
    exact hs.sublist (List.take_sublist 25 _)

/-- C6.  Month and year standings aggregate exactly the snapshot rows of
tournaments closed within the requested period (an open tournament
contributes nothing even with catches, since the queries never read the
catch ledger), computing per angler the summed bag, the maximal big bass
and the distinct contributing event count, ordered by summed bag then max
single, both descending. -/
theorem c6_period_standings (db : DB) (g m y : Nat)
    (hN : (db.tournaments.map (·.id)).Nodup) :
    (∀ e ∈ getMonthLeaderboard g m db, PeriodEntryCorrect g (endedInMonth m) db e) ∧
    (getMonthLeaderboard g m db).Pairwise periodDesc ∧
    (∀ e ∈ getYearLeaderboard g y db, PeriodEntryCorrect g (endedInYear y) db e) ∧
    (getYearLeaderboard g y db).Pairwise periodDesc ∧
    (∀ (ws : List WeighIn) (us : List Upload),
      getMonthLeaderboard g m { db with weighins := ws, uploads := us } =
        getMonthLeaderboard g m db) ∧
    (∀ (ws : List WeighIn) (us : List Upload),
      getYearLeaderboard g y { db with weighins := ws, uploads := us } =
        getYearLeaderboard g y db) :=
  ⟨(periodCore_correct g (endedInMonth m) db hN).1,
   (periodCore_correct g (endedInMonth m) db hN).2,
   (periodCore_correct g (endedInYear y) db hN).1,
   (periodCore_correct g (endedInYear y) db hN).2,
   fun _ _ => rfl, fun _ _ => rfl⟩


/-!  Concrete witnesses exercising the theorems above. -/

/-- One guild with one active tournament. -/
def dbS : DB :=
  { tournaments := [⟨1, 7, "A", true, 0, none⟩]
    weighins := []
    uploads := []
    results := []
    nextTournamentId := 2
    nextWeighInId := 1
    nextUploadId := 1 }

theorem c1_single_active_witness :
    activeCount 7 (execTrace [Op.start 7 "A" 0, Op.start 7 "B" 1, Op.endCmd 7 2]).1 ≤ 1 ∧
    ((⟨1, 7, "A", true, 0, none⟩ : Tournament) ∈ dbS.tournaments ∧
      (⟨1, 7, "A", true, 0, none⟩ : Tournament).guild = 7 ∧
      (⟨1, 7, "A", true, 0, none⟩ : Tournament).isActive = true) ∧
    ∃ t2 ∈ (startTournament 7 "B" 9 dbS).2.tournaments,
      t2.id = 1 ∧ t2.isActive = false ∧
      t2.endedAt = some ((⟨1, 7, "A", true, 0, none⟩ : Tournament).endedAt.getD 9) :=
  ⟨c1_single_active.1 [Op.start 7 "A" 0, Op.start 7 "B" 1, Op.endCmd 7 2] 7,
   ⟨by decide, rfl, rfl⟩,
   c1_single_active.2 dbS 7 "B" 9 ⟨1, 7, "A", true, 0, none⟩ (by decide) rfl rfl⟩

/-- One angler with six approved catches of weights 5, 6, 3, 1, 2, 4. -/
def dbW : DB :=
  { tournaments := [⟨1, 7, "Event", true, 0, none⟩]
    weighins :=
      [⟨1, 7, 10, 1, 42, 5, "p", none, "approved", 1⟩,
       ⟨2, 7, 10, 1, 42, 6, "p", none, "approved", 2⟩,
       ⟨3, 7, 10, 1, 42, 3, "p", none, "approved", 3⟩,
       ⟨4, 7, 10, 1, 42, 1, "p", none, "approved", 4⟩,
       ⟨5, 7, 10, 1, 42, 2, "p", none, "approved", 5⟩,
       ⟨6, 7, 10, 1, 42, 4, "p", none, "approved", 6⟩]
    uploads := []
    results := []
    nextTournamentId := 2
    nextWeighInId := 7
    nextUploadId := 1 }

theorem c2_total_bag_top_five_witness :
    anglerApprovedWeights 7 1 42 dbW ≠ [] ∧
    ((∃ row : BagRow, (bagAgg 7 1 dbW).filter (fun r => r.user == 42) = [row] ∧
        SumsTopFive (anglerApprovedWeights 7 1 42 dbW) row) ∧
      ∀ row ∈ getTotalBagLeaderboard 7 1 dbW, row ∈ bagAgg 7 1 dbW ∧ row.fishCount ≤ 5) :=
  ⟨by decide, c2_total_bag_top_five dbW 7 1 42 (by decide)⟩

theorem c3_big_bass_witness :
    (⟨42, 6⟩ : BigRow) ∈ getBigBassLeaderboard 7 1 dbW ∧
    IsMaxOf (6 : ℚ) (anglerApprovedWeights 7 1 42 dbW) :=
  ⟨by decide, (c3_big_bass dbW 7 1).2.1 ⟨42, 6⟩ (by decide)⟩

theorem c5_end_cmd_snapshots_closed_witness :
    getActiveTournament 7 dbS = some ⟨1, 7, "A", true, 0, none⟩ ∧
    ((∃ t2 ∈ (endTournament 7 1 9 dbS).tournaments,
        t2.id = 1 ∧ t2.guild = 7 ∧ t2.isActive = false ∧ t2.endedAt = some 9) ∧
      (∀ t2 ∈ (endTournament 7 1 9 dbS).tournaments,
        t2.guild = 7 → t2.id = 1 → t2.isActive = false ∧ t2.endedAt = some 9) ∧
      (snapshotTournamentResults 7 1 (endTournament 7 1 9 dbS)).tournaments =
        (endTournament 7 1 9 dbS).tournaments) :=
  ⟨by decide, c5_end_cmd_snapshots_closed dbS 7 9 ⟨1, 7, "A", true, 0, none⟩ (by decide)⟩

/-- One closed tournament of guild 7 with one snapshot row. -/
def dbP : DB :=
  { tournaments := [⟨1, 7, "E", false, 0, some 10⟩]
    weighins := []
    uploads := []
    results := [⟨7, 1, 42, 6, 20, 5⟩]
    nextTournamentId := 2
    nextWeighInId := 1
    nextUploadId := 1 }

theorem c6_period_standings_witness :
    (dbP.tournaments.map (·.id)).Nodup ∧
    ((∀ e ∈ getMonthLeaderboard 7 0 dbP, PeriodEntryCorrect 7 (endedInMonth 0) dbP e) ∧
      (getMonthLeaderboard 7 0 dbP).Pairwise periodDesc ∧
      (∀ e ∈ getYearLeaderboard 7 0 dbP, PeriodEntryCorrect 7 (endedInYear 0) dbP e) ∧
      (getYearLeaderboard 7 0 dbP).Pairwise periodDesc ∧
      (∀ (ws : List WeighIn) (us : List Upload),
        getMonthLeaderboard 7 0 { dbP with weighins := ws, uploads := us } =
          getMonthLeaderboard 7 0 dbP) ∧
      (∀ (ws : List WeighIn) (us : List Upload),
        getYearLeaderboard 7 0 { dbP with weighins := ws, uploads := us } =
          getYearLeaderboard 7 0 dbP)) :=
  ⟨by decide, c6_period_standings dbP 7 0 0 (by decide)⟩

/-- An active tournament and a recent upload of angler 42. -/
def dbU : DB :=
  { tournaments := [⟨1, 7, "A", true, 0, none⟩]
    weighins := []
    uploads := [⟨1, 7, 10, 42, 100, "img", 50⟩]
    results := []
    nextTournamentId := 2
    nextWeighInId := 1
    nextUploadId := 2 }

theorem c7_submit_catch_witness :
    wrongPanel none 10 = false ∧
    getActiveTournament 7 dbU = some ⟨1, 7, "A", true, 0, none⟩ ∧
    (0 : ℚ) < 2 ∧
    getLatestUpload 7 10 42 180 60 dbU = some ⟨1, 7, 10, 42, 100, "img", 50⟩ ∧
    (weighinModalHandler none 7 10 42 (some 2) none 60 dbU =
      (insertWeighIn 7 10 1 42 2 "img" none 60 dbU, Except.ok 1) ∧
      (insertWeighIn 7 10 1 42 2 "img" none 60 dbU).weighins =
        dbU.weighins ++ [⟨1, 7, 10, 1, 42, 2, "img", none, "approved", 60⟩]) :=
  ⟨rfl, by decide, by decide, by decide,
   (c7_submit_catch none 7 10 42 (some 2) none 60 dbU rfl).2.2.2
     ⟨1, 7, "A", true, 0, none⟩ 2 ⟨1, 7, 10, 42, 100, "img", 50⟩ (by decide) rfl (by decide)
     (by decide)⟩

/-- A single upload far older than the recency window. -/
def dbOld : DB :=
  { tournaments := []
    weighins := []
    uploads := [⟨1, 7, 10, 42, 100, "img", 0⟩]
    results := []
    nextTournamentId := 1
    nextWeighInId := 1
    nextUploadId := 2 }

theorem c8_latest_upload_witness :
    dbOld.uploads.Pairwise (fun a b => a.id < b.id) ∧
    ((getLatestUpload 7 10 42 180 300 dbOld = none ↔
        dbOld.uploads.filter (uploadMatches 7 10 42 180 300) = []) ∧
      ∀ r, getLatestUpload 7 10 42 180 300 dbOld = some r →
        r ∈ dbOld.uploads ∧ uploadMatches 7 10 42 180 300 r = true ∧
        (∀ x ∈ dbOld.uploads, uploadMatches 7 10 42 180 300 x = true →
          x.createdAt ≤ r.createdAt) ∧
        (∀ x ∈ dbOld.uploads, uploadMatches 7 10 42 180 300 x = true →
          x.createdAt = r.createdAt → r.id ≤ x.id)) :=
  ⟨by decide, c8_latest_upload dbOld 7 10 42 180 300 (by decide)⟩

/-- A pending catch of the invoking guild itself. -/
def dbOwn : DB :=
  { tournaments := []
    weighins := [⟨1, 7, 10, 1, 42, 5, "p", none, "pending", 0⟩]
    uploads := []
    results := []
    nextTournamentId := 1
    nextWeighInId := 2
    nextUploadId := 1 }

theorem c9_guild_scoped_status_witness :
    (∀ r ∈ dbOwn.results, r.tournamentId = 1 → r.guild = 7) ∧
    (∀ w ∈ dbOwn.weighins, w.id = 1 → w.guild = 7) ∧
    (startTournament 7 "A" 0 dbOwn).2.tournaments.filter (fun t => t.guild != 7) =
      dbOwn.tournaments.filter (fun t => t.guild != 7) ∧
    (snapshotTournamentResults 7 1 dbOwn).results.filter (fun r => r.guild != 7) =
      dbOwn.results.filter (fun r => r.guild != 7) ∧
    (setWeighInStatus 1 "approved" dbOwn).weighins.filter (fun w => w.guild != 7) =
      dbOwn.weighins.filter (fun w => w.guild != 7) :=
  ⟨by decide, by decide,
   ((c9_guild_scoped_status dbOwn 7).1 "A" 0).1,
   ((c9_guild_scoped_status dbOwn 7).2.2.2.2.1 1).1 (by decide),
   ((c9_guild_scoped_status dbOwn 7).2.2.2.2.2 1 "approved").1 (by decide)⟩

theorem c10_force_closed_not_counted_witness :
    (1 : Nat) ∉ (execTrace [Op.start 7 "A" 0, Op.start 7 "B" 5]).2 ∧
    ∀ row ∈ (execTrace [Op.start 7 "A" 0, Op.start 7 "B" 5]).1.results,
      row.tournamentId ≠ 1 :=
  ⟨by decide,
   c10_force_closed_not_counted.2.1 [Op.start 7 "A" 0, Op.start 7 "B" 5] 1 (by decide)⟩

end BassBot
